import Mathlib

/-!
Verification development for the anthropic/openai bridge library.

The Lean definitions below are shallow embeddings of the Python source:

* `streaming.py` — the SSE framer/decoder (`SSEParser.parse_line`,
  `SSEParser.parse_event`, `parse_openai_streaming_response`) and the
  stream transducer (`transform_openai_stream_to_anthropic`);
* `transformers/response.py` — `transform_openai_to_anthropic` and
  `_map_finish_reason_to_stop_reason`;
* `transformers/request.py` — `transform_anthropic_to_openai` with its
  helpers `_transform_messages`, `_transform_content_blocks`,
  `_transform_tools_to_functions`, `_transform_tool_choice`;
* `exceptions.py` — `map_openai_error_to_anthropic`;
* `types.py` — the data model (`ContentBlock`, `ToolUse`, streaming event
  classes, `OPENAI_TO_ANTHROPIC_STOP_REASON_MAP`).

Modelling conventions.  Python dicts decoded from JSON are modelled by
structures whose `Option` fields record presence/absence of the key (a
JSON `null` behaves exactly like an absent key in every code path that is
embedded here, so both are modelled by `none`).  Parsed JSON values are
abstracted by a type parameter `J` together with the decoding function
`jp : String → Option J` standing for `json.loads` (`none` = raise
`JSONDecodeError`), the value `je : J` standing for the empty object `{}`,
and `jd : J → String` standing for `json.dumps`.  No control path of the
embedded code inspects the internal structure of a parsed JSON value, so
this parametric treatment is exact.  Machine integers only occur as token
counts, which the code never does arithmetic on, so they are `Nat`.
-/

namespace Bridge

/-! ## Data model of decoded target-protocol (OpenAI) streaming chunks

Mirrors the dict shapes read by `transform_openai_stream_to_anthropic`
(`streaming.py`, lines 111-211). -/

/-- The `function` sub-dict of a tool-call entry: keys `name`, `arguments`. -/
structure SToolFunc where
  name : Option String
  arguments : Option String
deriving DecidableEq

/-- One entry of `delta["tool_calls"]`: keys `id`, `function`.  `function_`
is `none` when the key is absent or its value falsy (the code guards with
`if tool_call.get("function")`). -/
structure SToolCall where
  id : Option String
  function_ : Option SToolFunc
deriving DecidableEq

/-- `choice["delta"]`: keys `role`, `content`, `tool_calls`. -/
structure SDelta where
  role : Option String
  content : Option String
  toolCalls : Option (List SToolCall)
deriving DecidableEq

/-- One element of `event["choices"]`. -/
structure SChoice where
  delta : Option SDelta
  finishReason : Option String
deriving DecidableEq

/-- `event["usage"]`: keys `prompt_tokens`, `completion_tokens`. -/
structure SUsage where
  promptTokens : Option Nat
  completionTokens : Option Nat
deriving DecidableEq

/-- A decoded OpenAI streaming chunk, restricted to the keys the
transducer reads: `id`, `model`, `choices`, `usage`. -/
structure SChunk where
  id : Option String
  model : Option String
  choices : Option (List SChoice)
  usage : Option SUsage
deriving DecidableEq

/-- A content block (`types.py`: `ContentBlock` with `type="text"`, or
`ToolUse`). -/
inductive Blk (J : Type)
  | text (t : String)
  | toolUse (id name : String) (input : J)
deriving DecidableEq

/-- The payload of a `ContentBlockDelta` event: `{"text": s}` for text
deltas, `{"input": j}` for tool-call deltas. -/
inductive BlockDelta (J : Type)
  | text (s : String)
  | input (j : J)
deriving DecidableEq

/-- Anthropic streaming events (`types.py` streaming classes).
`messageStart` records the `id`/`model`/`role` of the in-progress message
at emission time; `messageDelta` records `delta["stop_reason"]` and the
usage attached to the message. -/
inductive SEvent (J : Type)
  | messageStart (id model role : String)
  | contentBlockStart (index : Nat) (block : Blk J)
  | contentBlockDelta (index : Nat) (delta : BlockDelta J)
  | contentBlockStop (index : Nat)
  | messageDelta (stopReason : Option String) (usage : Option (Nat × Nat))
  | messageStop
deriving DecidableEq

/-- Transducer state: the fields of the mutable `current_message`
(`StreamingMessage`) that the code reads or writes, plus the
`content_blocks` list.  In the source `current_message.content` and
`content_blocks` always hold the same sequence of blocks (every append
goes to both), so one list models both. -/
structure TState (J : Type) where
  msgId : String
  msgModel : String
  msgRole : String
  blocks : List (Blk J)
  stopReason : Option String
  usage : Option (Nat × Nat)
deriving DecidableEq

/-- `StreamingMessage()` defaults (`types.py`, lines 233-252). -/
def TState.init {J : Type} : TState J :=
  { msgId := "", msgModel := "", msgRole := "assistant",
    blocks := [], stopReason := none, usage := none }

/-- The stop-reason table `OPENAI_TO_ANTHROPIC_STOP_REASON_MAP`
(`types.py` lines 445-451); `transform_openai_stream_to_anthropic` inlines
an identical literal dict (`streaming.py` lines 183-189). -/
def openaiToAnthropicStopReasonMap : List (String × String) :=
  [("stop", "end_turn"),
   ("length", "max_tokens"),
   ("function_call", "tool_use"),
   ("tool_calls", "tool_use"),
   ("content_filter", "end_turn")]

/-- `OPENAI_TO_ANTHROPIC_STOP_REASON_MAP.get(finish_reason, "end_turn")`. -/
def stopReasonGet (fr : String) : String :=
  (openaiToAnthropicStopReasonMap.lookup fr).getD "end_turn"

/-- `_map_finish_reason_to_stop_reason` (`transformers/response.py`,
lines 94-98): `None` maps to `None`, otherwise the table with default
`"end_turn"`. -/
def mapFinishReasonToStopReason : Option String → Option String
  | none => none
  | some fr => some (stopReasonGet fr)

/-! ## The stream transducer (`transform_openai_stream_to_anthropic`)

Each handler below embeds one block of the per-chunk body
(`streaming.py`, lines 118-211).  The whole body runs inside
`try/except Exception: continue`; in this embedding the only operation
that can raise is `json.loads` on a truthy `arguments` string (modelled
by `jp` returning `none`), plus the `event["choices"][0]` IndexError on
an empty `choices` list, which occurs before any event is emitted.  A
raise keeps all events already yielded and all state mutations already
performed, and abandons the rest of the chunk. -/

/-- The "Message start" block (lines 127-132): on a truthy `delta.role`,
overwrite `current_message.id/model/role` and yield `MessageStart`. -/
def stepRole {J : Type} (st : TState J) (c : SChunk) (d : SDelta) :
    TState J × List (SEvent J) :=
  match d.role with
  | some r =>
    if r = "" then (st, [])
    else
      let st' := { st with msgId := c.id.getD "", msgModel := c.model.getD "",
                           msgRole := r }
      (st', [SEvent.messageStart st'.msgId st'.msgModel st'.msgRole])
  | none => (st, [])

/-- `content_blocks[0].text += content` when block 0 is a text block
(line 146-147); a `ToolUse` in position 0 is left unchanged. -/
def setHeadText {J : Type} (bs : List (Blk J)) (s : String) : List (Blk J) :=
  match bs with
  | Blk.text t :: rest => Blk.text (t ++ s) :: rest
  | other => other

/-- The "Content delta" block (lines 134-148): on a present truthy
`delta.content`, open block 0 as an empty text block if no block exists
yet, append the text, and yield `ContentBlockDelta(0, {text})`. -/
def stepContent {J : Type} (st : TState J) (d : SDelta) :
    TState J × List (SEvent J) :=
  match d.content with
  | some s =>
    if s = "" then (st, [])
    else
      let stEvs :=
        if st.blocks.isEmpty then
          ({ st with blocks := [Blk.text ""] },
           [SEvent.contentBlockStart 0 (Blk.text "")])
        else (st, ([] : List (SEvent J)))
      let st2 := { stEvs.1 with blocks := setHeadText stEvs.1.blocks s }
      (st2, stEvs.2 ++ [SEvent.contentBlockDelta 0 (BlockDelta.text s)])
  | none => (st, [])

/-- The "Tool calls" loop (lines 150-173).  For the entry at position `i`:
skip it if `function` is falsy; otherwise parse `arguments` when truthy
(`json.loads`, which may raise: the `Bool` result is the abort flag) or
default the input to `{}`; open index `i` when `len(content_blocks) <= i`
and always yield `ContentBlockDelta(i, {input})`. -/
def stepToolCalls {J : Type} (jp : String → Option J) (je : J) :
    TState J → Nat → List SToolCall → TState J × List (SEvent J) × Bool
  | st, _, [] => (st, [], false)
  | st, i, tc :: rest =>
    match tc.function_ with
    | none => stepToolCalls jp je st (i + 1) rest
    | some f =>
      let argRes : Option J :=
        match f.arguments with
        | some s => if s = "" then some je else jp s
        | none => some je
      match argRes with
      | none => (st, [], true)
      | some j =>
        let blk := Blk.toolUse (tc.id.getD "") (f.name.getD "") j
        let stEvs :=
          if st.blocks.length ≤ i then
            ({ st with blocks := st.blocks ++ [blk] },
             [SEvent.contentBlockStart i blk])
          else (st, ([] : List (SEvent J)))
        let res := stepToolCalls jp je stEvs.1 (i + 1) rest
        (res.1, stEvs.2 ++ SEvent.contentBlockDelta i (BlockDelta.input j) :: res.2.1,
         res.2.2)

/-- `choice.get("delta", {})`. -/
def emptyDelta : SDelta := ⟨none, none, none⟩

/-- Lines 127-173 of the chunk body: role, content, tool calls.  The
`Bool` is the abort flag (a raise inside the tool-call loop). -/
def chunkBody {J : Type} (jp : String → Option J) (je : J) (st : TState J)
    (c : SChunk) (ch : SChoice) : TState J × List (SEvent J) × Bool :=
  let d := ch.delta.getD emptyDelta
  let r1 := stepRole st c d
  let r2 := stepContent r1.1 d
  match d.toolCalls with
  | some tcs =>
    let r3 := stepToolCalls jp je r2.1 0 tcs
    (r3.1, r1.2 ++ r2.2 ++ r3.2.1, r3.2.2)
  | none => (r2.1, r1.2 ++ r2.2, false)

/-- The "Finish reason" block (lines 175-207): on a truthy
`finish_reason`, yield `ContentBlockStop` for indices
`0 .. len(content_blocks)-1` in ascending order, resolve the stop reason
through the table, refresh the usage when the chunk carries one, then
yield `MessageDelta` and `MessageStop`.  (The loop body then simply
continues with the next chunk: there is no `return`.) -/
def finishStep {J : Type} (st : TState J) (fr : Option String)
    (uo : Option SUsage) : TState J × List (SEvent J) :=
  match fr with
  | some f =>
    if f = "" then (st, [])
    else
      let stops := (List.range st.blocks.length).map SEvent.contentBlockStop
      let sr := stopReasonGet f
      let u := match uo with
        | some ud => some (ud.promptTokens.getD 0, ud.completionTokens.getD 0)
        | none => st.usage
      let st' := { st with stopReason := some sr, usage := u }
      (st', stops ++ [SEvent.messageDelta (some sr) u, SEvent.messageStop])
  | none => (st, [])

/-- Processing of one decoded chunk (lines 118-211): chunks without a
`choices` key are skipped; `choices[0]` on an empty list raises and the
chunk is skipped; otherwise run the body and, unless it aborted, the
finish block. -/
def processChunk {J : Type} (jp : String → Option J) (je : J)
    (st : TState J) (c : SChunk) : TState J × List (SEvent J) :=
  match c.choices with
  | some (ch :: _) =>
    let rb := chunkBody jp je st c ch
    if rb.2.2 then (rb.1, rb.2.1)
    else
      let rf := finishStep rb.1 ch.finishReason c.usage
      (rf.1, rb.2.1 ++ rf.2)
  | some [] => (st, [])
  | none => (st, [])

/-- The transducer loop over the decoded chunk sequence. -/
def runTransducer {J : Type} (jp : String → Option J) (je : J) :
    TState J → List SChunk → List (SEvent J)
  | _, [] => []
  | st, c :: cs =>
    let r := processChunk jp je st c
    r.2 ++ runTransducer jp je r.1 cs

/-- `transform_openai_stream_to_anthropic` (`streaming.py`,
lines 111-211), as the function from the decoded chunk list to the list
of yielded events. -/
def transformOpenaiStreamToAnthropic {J : Type} (jp : String → Option J)
    (je : J) (cs : List SChunk) : List (SEvent J) :=
  runTransducer jp je TState.init cs

/-- The state after processing a list of chunks. -/
def foldState {J : Type} (jp : String → Option J) (je : J) :
    TState J → List SChunk → TState J
  | st, [] => st
  | st, c :: cs => foldState jp je (processChunk jp je st c).1 cs

/-! ## The response mapper (`transformers/response.py`)

Dict shapes read by `transform_openai_to_anthropic` (lines 44-88). -/

/-- `choices[0]["message"]`: keys `content`, `tool_calls`. -/
structure RMsg where
  content : Option String
  toolCalls : Option (List SToolCall)
deriving DecidableEq

/-- One element of the response's `choices`. -/
structure RChoice where
  message : Option RMsg
  finishReason : Option String
deriving DecidableEq

/-- A non-streaming OpenAI response, restricted to the keys read:
`id`, `model`, `choices`, `usage`. -/
structure RResp where
  id : Option String
  model : Option String
  choices : Option (List RChoice)
  usage : Option SUsage
deriving DecidableEq

/-- The Anthropic `Message` built by the response mapper (`types.py`
`Message`): usage is the pair (input_tokens, output_tokens). -/
structure AMessage (J : Type) where
  id : String
  type : String
  role : String
  content : List (Blk J)
  model : String
  stopReason : Option String
  stopSequence : Option String
  usage : Nat × Nat
deriving DecidableEq

/-- Lines 54-68: one `tool_calls` entry becomes a `ToolUse` block when its
`function` is truthy; `json.loads(func.get("arguments", "{}"))` with
`except JSONDecodeError: arguments = {}` is `(jp (args.getD "\x7b\x7d")).getD je`
(`json.loads "\x7b\x7d"` always succeeds with `{}` in Python, and when the
abstract `jp` is partial the fallback yields the same `je`). -/
def toolUseOfEntry {J : Type} (jp : String → Option J) (je : J)
    (tc : SToolCall) : Option (Blk J) :=
  tc.function_.map fun f =>
    Blk.toolUse (tc.id.getD "") (f.name.getD "")
      ((jp (f.arguments.getD "\x7b\x7d")).getD je)

/-- `choice = {}` when `choices` is absent, empty or falsy. -/
def emptyRChoice : RChoice := ⟨none, none⟩

/-- `transform_openai_to_anthropic` (`transformers/response.py`,
lines 17-91).  `uuidHex` is the hex digest produced by `uuid.uuid4()` for
the id fallback: the source computes `f"msg_{uuid.uuid4().hex}"`, modelled
as `"msg_" ++ uuidHex` with the random digest passed as a parameter. -/
def transformOpenaiToAnthropic {J : Type} (jp : String → Option J) (je : J)
    (uuidHex : String) (r : RResp) : AMessage J :=
  let choice := match r.choices with
    | some (c :: _) => c
    | _ => emptyRChoice
  let msg := choice.message.getD ⟨none, none⟩
  let textBlocks : List (Blk J) := match msg.content with
    | some s => if s = "" then [] else [Blk.text s]
    | none => []
  let toolBlocks : List (Blk J) := match msg.toolCalls with
    | some tcs => if tcs.isEmpty then [] else tcs.filterMap (toolUseOfEntry jp je)
    | none => []
  { id := r.id.getD ("msg_" ++ uuidHex)
    type := "message"
    role := "assistant"
    content := textBlocks ++ toolBlocks
    model := r.model.getD "unknown"
    stopReason := mapFinishReasonToStopReason choice.finishReason
    stopSequence := none
    usage := ((r.usage.getD ⟨none, none⟩).promptTokens.getD 0,
              (r.usage.getD ⟨none, none⟩).completionTokens.getD 0) }

/-! ## The error mapper (`exceptions.py`)

`map_openai_error_to_anthropic` (lines 51-87) picks one of nine exception
classes from the status code and extracts a human message from the error
body.  The returned exception object stores the message and the optional
raw `httpx` response (the numeric code itself is not a field of the
error); the embedding returns the pair (class, message). -/

/-- The nine exception classes of `exceptions.py`; `generic` is the base
`APIError`. -/
inductive ErrKind
  | badRequest
  | authentication
  | permissionDenied
  | notFound
  | conflict
  | unprocessableEntity
  | rateLimit
  | internalServer
  | generic
deriving DecidableEq

/-- The value of the body's `error` key: either a dict (whose `message`
key may be absent) or any other value, carried by its `str()` image
(Python applies `str` to non-dict values, line 63). -/
inductive ErrVal
  | vdict (message : Option String)
  | vother (strImage : String)
deriving DecidableEq

/-- The error body dict, restricted to the keys read: `error`, `message`. -/
structure ErrBody where
  error : Option ErrVal
  message : Option String
deriving DecidableEq

/-- Lines 56-65: the message extraction.  The `if error_data:` truthiness
test is modelled by "some modelled key is present"; a body dict holding
only keys other than `error`/`message` is truthy but reaches the same
`"Unknown error"` result as a falsy one, so this modelling loses no
behavior. -/
def errMessageOf (body : Option ErrBody) : String :=
  match body with
  | none => "Unknown error"
  | some b =>
    if b.error.isSome ∨ b.message.isSome then
      match b.error with
      | some (ErrVal.vdict m) => m.getD "Unknown error"
      | some (ErrVal.vother s) => s
      | none =>
        match b.message with
        | some m => m
        | none => "Unknown error"
    else "Unknown error"

/-- Lines 67-84: the status-code dispatch. -/
def errKindOf (status : Int) : ErrKind :=
  if status = 400 then ErrKind.badRequest
  else if status = 401 then ErrKind.authentication
  else if status = 403 then ErrKind.permissionDenied
  else if status = 404 then ErrKind.notFound
  else if status = 409 then ErrKind.conflict
  else if status = 422 then ErrKind.unprocessableEntity
  else if status = 429 then ErrKind.rateLimit
  else if status ≥ 500 then ErrKind.internalServer
  else ErrKind.generic

/-- `map_openai_error_to_anthropic` as (exception class, message). -/
def mapOpenaiErrorToAnthropic (status : Int) (body : Option ErrBody) :
    ErrKind × String :=
  (errKindOf status, errMessageOf body)

/-! ## The request mapper (`transformers/request.py`)

Anthropic request shapes.  `V` is the type of payload values that the
mapper copies through verbatim (`max_tokens`, `temperature`, `top_p`,
`stop_sequences`, `stream`); their internal structure is never inspected. -/

/-- An Anthropic content block as read by `_transform_content_blocks`
(lines 109-134): the block's `type` selects the variant, `other` covers
every unrecognized type (including a `"text"` block missing its `text`
key, which the code also ignores).  A `tool_result` block's `content`
value is only ever passed to `str()`, so it is carried by its `str()`
image. -/
inductive ABlock (J : Type)
  | text (t : String)
  | toolUse (id : Option String) (name : Option String) (input : Option J)
  | toolResult (toolUseId : Option String) (contentStr : Option String)
  | other
deriving DecidableEq

/-- A source message's `content`: a plain string, a block list, or any
other value (which `_transform_messages` silently drops, lines 87-96). -/
inductive AContent (J : Type)
  | str (s : String)
  | blocks (bs : List (ABlock J))
  | otherVal
deriving DecidableEq

/-- A source message: `role` and `content`. -/
structure AMsg (J : Type) where
  role : String
  content : AContent J
deriving DecidableEq

/-- An Anthropic tool definition (`_transform_tools_to_functions`,
lines 168-185): keys `name`, `description`, `input_schema`. -/
structure ATool (J : Type) where
  name : Option String
  description : Option String
  inputSchema : Option J
deriving DecidableEq

/-- The value of `tool_choice`: a string, a dict (modelled as an
association list of string keys to string-or-other values, where `none`
stands for a value that is `null`/non-string — both compare unequal to
`"tool"` and are falsy as a name), or any other value (`nullv`). -/
inductive TCVal
  | str (s : String)
  | dict (entries : List (String × Option String))
  | nullv
deriving DecidableEq

/-- Python truthiness of a `tool_choice` value (guard on line 68 of
`transform_anthropic_to_openai`): empty string, empty dict and `None` are
falsy. -/
def tcTruthy : TCVal → Bool
  | TCVal.str s => !(s == "")
  | TCVal.dict es => !es.isEmpty
  | TCVal.nullv => false

/-- `dict.get(k)` on the tool-choice dict: absent key and `null`/non-string
value both give `none`. -/
def dictGet (es : List (String × Option String)) (k : String) : Option String :=
  (es.lookup k).join

/-- An OpenAI message dict as built by the request mapper: `Option`
fields model key absence. -/
structure OToolCallOut where
  id : String
  callType : String
  name : String
  arguments : String
deriving DecidableEq

/-- An OpenAI chat message produced by `_transform_messages` /
`_transform_content_blocks`. -/
structure OMsg where
  role : String
  content : Option String
  toolCalls : Option (List OToolCallOut)
  toolCallId : Option String
deriving DecidableEq

/-- The transformed `tool_choice`: the strings `"auto"`/`"required"` or
the `{type:"function", function:{name}}` object. -/
inductive OToolChoiceOut
  | strv (s : String)
  | fnObj (name : String)
deriving DecidableEq

/-- An OpenAI tool definition `{type:"function", function:{name,
description, parameters}}`; `parameters` is `input_schema` with default
`{}`. -/
structure OToolOut (J : Type) where
  name : String
  description : String
  parameters : J
deriving DecidableEq

/-- `_transform_tool_choice` (lines 188-209). -/
def transformToolChoice : TCVal → OToolChoiceOut
  | TCVal.str s =>
    if s = "auto" then OToolChoiceOut.strv "auto"
    else if s = "any" ∨ s = "required" then OToolChoiceOut.strv "required"
    else OToolChoiceOut.strv "auto"
  | TCVal.dict es =>
    match dictGet es "type" with
    | some t =>
      if t = "tool" then
        match dictGet es "name" with
        | some n => if n = "" then OToolChoiceOut.strv "auto" else OToolChoiceOut.fnObj n
        | none => OToolChoiceOut.strv "auto"
      else OToolChoiceOut.strv "auto"
    | none => OToolChoiceOut.strv "auto"
  | TCVal.nullv => OToolChoiceOut.strv "auto"

/-- The text parts collected from a block list (lines 112-113). -/
def textPartsOf {J : Type} (bs : List (ABlock J)) : List String :=
  bs.filterMap fun b => match b with
    | ABlock.text t => some t
    | _ => none

/-- The tool-call entries collected from a block list (lines 115-125):
`arguments` is `json.dumps(block.get("input", {}))`. -/
def toolCallsOf {J : Type} (jd : J → String) (je : J) (bs : List (ABlock J)) :
    List OToolCallOut :=
  bs.filterMap fun b => match b with
    | ABlock.toolUse i n inp =>
      some { id := i.getD "", callType := "function", name := n.getD "",
             arguments := jd (inp.getD je) }
    | _ => none

/-- The tool-result messages collected from a block list (lines 127-134):
each becomes `{role:"tool", tool_call_id, content}`. -/
def toolResultsOf {J : Type} (bs : List (ABlock J)) : List OMsg :=
  bs.filterMap fun b => match b with
    | ABlock.toolResult tid ct =>
      some { role := "tool", content := some (ct.getD ""), toolCalls := none,
             toolCallId := some (tid.getD "") }
    | _ => none

/-- The return value of `_transform_content_blocks`: a single message
dict, a list of message dicts, or the empty dict `{}` (line 165). -/
inductive TCBRes
  | one (m : OMsg)
  | many (ms : List OMsg)
  | emptyDict
deriving DecidableEq

/-- `_transform_content_blocks` (lines 101-165): build the combined main
message from text parts and tool calls, append the tool-result messages,
then return a dict, a list, or `{}` depending on what was collected. -/
def transformContentBlocks {J : Type} (jd : J → String) (je : J)
    (role : String) (bs : List (ABlock J)) : TCBRes :=
  let textParts := textPartsOf bs
  let toolCalls := toolCallsOf jd je bs
  let toolResults := toolResultsOf bs
  let mainMsgs : List OMsg :=
    if textParts.isEmpty ∧ toolCalls.isEmpty then []
    else
      [{ role := role
         content :=
           if !textParts.isEmpty then some (String.intercalate "\n" textParts)
           else if !toolCalls.isEmpty then some ""
           else none
         toolCalls := if toolCalls.isEmpty then none else some toolCalls
         toolCallId := none }]
  let messages := mainMsgs ++ toolResults
  match messages with
  | [m] => if toolResults.isEmpty then TCBRes.one m else TCBRes.many [m]
  | [] => TCBRes.emptyDict
  | ms => TCBRes.many ms

/-- The contribution of one source message to the output list
(`_transform_messages`, lines 83-96): a string content gives one
role-tagged message; a block list goes through
`_transform_content_blocks`, whose falsy `{}` result is dropped and whose
list result is spliced; any other content is dropped. -/
def msgContribution {J : Type} (jd : J → String) (je : J) (m : AMsg J) :
    List OMsg :=
  match m.content with
  | AContent.str s => [{ role := m.role, content := some s, toolCalls := none,
                         toolCallId := none }]
  | AContent.blocks bs =>
    match transformContentBlocks jd je m.role bs with
    | TCBRes.one mm => [mm]
    | TCBRes.many ms => ms
    | TCBRes.emptyDict => []
  | AContent.otherVal => []

/-- `_transform_messages` (lines 75-98): optionally prepend the system
message (truthy system prompt only), then concatenate each message's
contribution. -/
def transformMessages {J : Type} (jd : J → String) (je : J)
    (msgs : List (AMsg J)) (system : Option String) : List OMsg :=
  (match system with
   | some s =>
     if s = "" then []
     else [{ role := "system", content := some s, toolCalls := none,
             toolCallId := none }]
   | none => []) ++
  (msgs.map (msgContribution jd je)).flatten

/-- `_transform_tools_to_functions` (lines 168-185). -/
def transformToolsToFunctions {J : Type} (je : J) (ts : List (ATool J)) :
    List (OToolOut J) :=
  ts.map fun t =>
    { name := t.name.getD "", description := t.description.getD "",
      parameters := t.inputSchema.getD je }

/-- The Anthropic request dict, restricted to the keys
`transform_anthropic_to_openai` reads.  `extra` carries every other key
of the open-ended dict (e.g. the extension bag merged by
`Messages.create`); no branch of the mapper reads it. -/
structure AParams (J V : Type) where
  model : String
  messages : List (AMsg J)
  system : Option String
  maxTokens : Option V
  temperature : Option V
  topP : Option V
  stopSequences : Option V
  stream : Option V
  tools : Option (List (ATool J))
  toolChoice : Option TCVal
  extra : List (String × V)

/-- A value of the OpenAI request dict. -/
inductive OVal (J V : Type)
  | str (s : String)
  | msgs (ms : List OMsg)
  | pass (v : V)
  | tools (ts : List (OToolOut J))
  | toolChoice (tc : OToolChoiceOut)
deriving DecidableEq

/-- One `if key in params: openai_params[newKey] = params[key]` step. -/
def optEntry {β J V : Type} (key : String) (o : Option β)
    (f : β → OVal J V) : List (String × OVal J V) :=
  match o with
  | some v => [(key, f v)]
  | none => []

/-- The `tools` entry: assigned only when `params["tools"]` is present and
truthy (non-empty). -/
def toolsEntry {J V : Type} (je : J) (o : Option (List (ATool J))) :
    List (String × OVal J V) :=
  match o with
  | some ts =>
    if ts.isEmpty then []
    else [("tools", OVal.tools (transformToolsToFunctions je ts))]
  | none => []

/-- The `tool_choice` entry: assigned only when `params["tool_choice"]` is
present and truthy. -/
def toolChoiceEntry {J V : Type} (o : Option TCVal) : List (String × OVal J V) :=
  match o with
  | some tc =>
    if tcTruthy tc then [("tool_choice", OVal.toolChoice (transformToolChoice tc))]
    else []
  | none => []

/-- `transform_anthropic_to_openai` (`transformers/request.py`,
lines 10-72) as the association list of dict entries it assigns (all
assigned keys are distinct, so the association list is the dict). -/
def transformAnthropicToOpenai {J V : Type} (jd : J → String) (je : J)
    (p : AParams J V) : List (String × OVal J V) :=
  [("model", OVal.str p.model),
   ("messages", OVal.msgs (transformMessages jd je p.messages p.system))] ++
  optEntry "max_tokens" p.maxTokens OVal.pass ++
  optEntry "temperature" p.temperature OVal.pass ++
  optEntry "top_p" p.topP OVal.pass ++
  optEntry "stop" p.stopSequences OVal.pass ++
  optEntry "stream" p.stream OVal.pass ++
  toolsEntry je p.tools ++
  toolChoiceEntry p.toolChoice

/-! ## The SSE framer and decoder (`streaming.py`, lines 28-89)

Text is modelled as `List Char`.  `SSEParser.parse_line`/`parse_event`
operate on one framed record; `parse_openai_streaming_response` owns the
buffer that splits the incoming fragment stream on `"\n\n"`.

The decoded JSON payload of a `data:` record is only stored and yielded,
never branched on (the `[DONE]` test happens on the raw string before
decoding), so the embedding yields the raw payload string; `json.loads`
with its string fallback is a fixed post-composition that does not affect
which payloads are yielded or their order. -/

/-- Python `str.strip()` whitespace set. -/
def pyWs (c : Char) : Bool :=
  ([' ', '\t', '\n', '\r', '\x0b', '\x0c'] : List Char).contains c

/-- Python `str.strip()`. -/
def pyStrip (l : List Char) : List Char :=
  ((l.dropWhile pyWs).reverse.dropWhile pyWs).reverse

/-- Python `str.split(sep)` for a one-character separator (trailing empty
pieces preserved, as in `"a\n".split("\n") = ["a", ""]`). -/
def splitOnChar (sep : Char) : List Char → List (List Char)
  | [] => [[]]
  | c :: rest =>
    if c = sep then [] :: splitOnChar sep rest
    else
      match splitOnChar sep rest with
      | h :: t => (c :: h) :: t
      | [] => [[c]]

/-- Python `line.split(":", 1)` guarded by `":" in line`: `none` when the
line holds no colon. -/
def splitFirstColon : List Char → Option (List Char × List Char)
  | [] => none
  | c :: rest =>
    if c = ':' then some ([], rest)
    else (splitFirstColon rest).map fun p => (c :: p.1, p.2)

/-- `SSEParser.parse_line` (lines 31-42): strip the line; drop empty lines
and comment lines; split at the first colon into stripped key and value,
or map a colon-free line to the empty value. -/
def parseLine (l : List Char) : Option (List Char × List Char) :=
  let s := pyStrip l
  if s.isEmpty then none
  else if s.head? = some ':' then none
  else
    match splitFirstColon s with
    | some (k, v) => some (pyStrip k, pyStrip v)
    | none => some (s, [])

/-- `event[key] = value` on the event dict (overwrite or append). -/
def setField (fs : List (List Char × List Char)) (k v : List Char) :
    List (List Char × List Char) :=
  match fs with
  | [] => [(k, v)]
  | (k', v') :: rest => if k' = k then (k, v) :: rest else (k', v') :: setField rest k v

/-- `event.get(key)` on the event dict. -/
def getField (fs : List (List Char × List Char)) (k : List Char) :
    Option (List Char) :=
  match fs with
  | [] => none
  | (k', v') :: rest => if k' = k then some v' else getField rest k

/-- The line loop of `parse_event` (lines 50-57): route `data:` values to
`data_lines` (in order), everything else into the field dict. -/
def collectLines (fs : List (List Char × List Char)) (ds : List (List Char)) :
    List (List Char) → List (List Char × List Char) × List (List Char)
  | [] => (fs, ds)
  | l :: rest =>
    match parseLine l with
    | none => collectLines fs ds rest
    | some (k, v) =>
      if k = ['d', 'a', 't', 'a'] then collectLines fs (ds ++ [v]) rest
      else collectLines (setField fs k v) ds rest

/-- Python `"\n".join`. -/
def joinNL : List (List Char) → List Char
  | [] => []
  | [x] => x
  | x :: y :: rest => x ++ '\n' :: joinNL (y :: rest)

/-- A decoded SSE event: the non-`data` fields, and the concatenated raw
`data` payload when data lines were present (carried before JSON
decoding, see the section comment). -/
structure SSERec where
  fields : List (List Char × List Char)
  dataStr : Option (List Char)
deriving DecidableEq

/-- The literal `[DONE]`. -/
def doneLit : List Char := ['[', 'D', 'O', 'N', 'E', ']']

/-- `SSEParser.parse_event` (lines 44-68): collect fields and data lines;
a payload equal to `[DONE]` decodes to the dict `{"event": "done"}`;
otherwise the payload is stored under `data`; a record with no recognized
field decodes to `None`. -/
def parseEvent (record : List Char) : Option SSERec :=
  let col := collectLines [] [] (splitOnChar '\n' record)
  if col.2.isEmpty then
    if col.1.isEmpty then none else some ⟨col.1, none⟩
  else
    let d := joinNL col.2
    if d = doneLit then
      some ⟨[(['e', 'v', 'e', 'n', 't'], ['d', 'o', 'n', 'e'])], none⟩
    else some ⟨setField col.1 ['d', 'a', 't', 'a'] d, some d⟩

/-- `event.get("event") == "done"` (line 85). -/
def evDone (e : SSERec) : Bool :=
  getField e.fields ['e', 'v', 'e', 'n', 't'] == some ['d', 'o', 'n', 'e']

/-- The buffer drain: Python's `while "\n\n" in buffer: event_data, buffer
= buffer.split("\n\n", 1)` (lines 80-81), realized as a left-to-right scan
(`cur` holds the characters since the last delimiter, reversed).  Scanning
for the first position where two consecutive newlines occur is exactly
`str.split("\n\n", 1)` iterated. -/
def drainAux : List Char → List Char → List (List Char) × List Char
  | cur, [] => ([], cur.reverse)
  | cur, [c] => ([], (c :: cur).reverse)
  | cur, c :: d :: rest =>
    if c = '\n' ∧ d = '\n' then
      let p := drainAux [] rest
      (cur.reverse :: p.1, p.2)
    else drainAux (c :: cur) (d :: rest)

/-- The per-drain record loop of `parse_openai_streaming_response`
(lines 82-88): decode each record; a falsy event is skipped; a done event
returns from the generator (the `Bool`); a `data` payload is yielded. -/
def procRecords : List (List Char) → List (List Char) × Bool
  | [] => ([], false)
  | r :: rest =>
    match parseEvent r with
    | none => procRecords rest
    | some ev =>
      if evDone ev then ([], true)
      else
        match ev.dataStr with
        | some d => let res := procRecords rest; (d :: res.1, res.2)
        | none => procRecords rest

/-- The chunk loop of `parse_openai_streaming_response` (lines 75-88):
append each fragment to the buffer, drain all complete records, process
them, and stop for good once the done sentinel was seen. -/
def sseStream : List Char → List (List Char) → List (List Char)
  | _, [] => []
  | b, c :: cs =>
    let dr := drainAux [] (b ++ c)
    let pr := procRecords dr.1
    if pr.2 then pr.1 else pr.1 ++ sseStream dr.2 cs

/-- `parse_openai_streaming_response` (lines 71-89) on a fragment list:
the sequence of raw data payloads it yields. -/
def parseOpenAIStreamingResponse (chunks : List (List Char)) : List (List Char) :=
  sseStream [] chunks

/-- The complete double-newline-delimited records of a text (the
non-delimited tail is not a record). -/
def completeRecords (s : List Char) : List (List Char) :=
  (drainAux [] s).1

/-- Record-list emission: what the generator yields on a record list,
expressed without the incremental buffer — skip falsy events, stop at a
done event, yield data payloads. -/
def emitRecords : List (List Char) → List (List Char)
  | [] => []
  | r :: rest =>
    match parseEvent r with
    | none => emitRecords rest
    | some ev =>
      if evDone ev then []
      else
        match ev.dataStr with
        | some d => d :: emitRecords rest
        | none => emitRecords rest

/-- Modelled from the words of claim C4 (for comparison with the code):
the concatenated data payload of one record, when the record has data
lines. -/
def recordDataPayload (r : List Char) : Option (List Char) :=
  let col := collectLines [] [] (splitOnChar '\n' r)
  if col.2.isEmpty then none else some (joinNL col.2)

/-- Modelled from the words of claim C4 (for comparison with the code):
yield the data payloads of the records in order, terminating only at a
record whose concatenated data payload equals `[DONE]`. -/
def claimEmitRecords : List (List Char) → List (List Char)
  | [] => []
  | r :: rest =>
    match recordDataPayload r with
    | some d => if d = doneLit then [] else d :: claimEmitRecords rest
    | none => claimEmitRecords rest

/-- First-occurrence split on `"\n\n"`: Python `buffer.split("\n\n", 1)`
(`none` when the buffer holds no delimiter).  Reasoning-side companion of
`drainAux`. -/
def splitOnceNN : List Char → Option (List Char × List Char)
  | [] => none
  | c :: rest =>
    if c = '\n' ∧ rest.head? = some '\n' then some ([], rest.tail)
    else (splitOnceNN rest).map fun p => (c :: p.1, p.2)

/-- The record split Python computes on a full buffer: iterated
`split("\n\n", 1)`. -/
def drainSpec (s : List Char) : List (List Char) × List Char :=
  match h : splitOnceNN s with
  | none => ([], s)
  | some p => ((drainSpec p.2).1.cons p.1, (drainSpec p.2).2)
termination_by s.length
decreasing_by
  have hshape : ∀ (t r rest : List Char), splitOnceNN t = some (r, rest) →
      t = r ++ '\n' :: '\n' :: rest := by
    intro t
    induction t with
    | nil => intro r rest hx; simp [splitOnceNN] at hx
    | cons c t ih =>
      intro r rest hx
      rw [splitOnceNN] at hx
      split at hx
      · rename_i hc
        obtain ⟨hc1, hc2⟩ := hc
        obtain ⟨t2, ht2⟩ : ∃ t2, t = '\n' :: t2 := by
          cases t with
          | nil => simp at hc2
          | cons x xs => simp at hc2; exact ⟨xs, by rw [hc2]⟩
        subst ht2
        simp at hx
        obtain ⟨hx1, hx2⟩ := hx
        subst hx1 hx2 hc1
        simp
      · cases hm : splitOnceNN t with
        | none => rw [hm] at hx; simp at hx
        | some q =>
          rw [hm] at hx
          simp at hx
          obtain ⟨hx1, hx2⟩ := hx
          have := ih q.1 q.2 (by rw [hm])
          subst hx2
          rw [this, ← hx1]
          simp
  have hs := hshape s p.1 p.2 h
  rw [hs]
  simp
  omega

/-! ## Observations on the transducer's emitted event sequences -/

/-- Is the event a `MessageStart`? -/
def isMessageStartEv {J : Type} : SEvent J → Bool
  | SEvent.messageStart _ _ _ => true
  | _ => false

/-- Is the event a `MessageStop`? -/
def isMessageStopEv {J : Type} : SEvent J → Bool
  | SEvent.messageStop => true
  | _ => false

/-- Is the event one of the stream-closing kinds
(`ContentBlockStop`/`MessageDelta`/`MessageStop`)?  The transducer emits
these only from its finish block. -/
def isStopLike {J : Type} : SEvent J → Bool
  | SEvent.messageStop => true
  | SEvent.messageDelta _ _ => true
  | SEvent.contentBlockStop _ => true
  | _ => false

/-- `event["choices"][0]` when it exists. -/
def firstChoice (c : SChunk) : Option SChoice :=
  match c.choices with
  | some (ch :: _) => some ch
  | _ => none

/-- Does the delta carry a truthy `role`? -/
def deltaHasRole (d : SDelta) : Bool :=
  match d.role with
  | some r => !(r == "")
  | none => false

/-- Does the chunk's first choice carry a truthy `delta.role`? -/
def chunkHasRole (c : SChunk) : Bool :=
  match firstChoice c with
  | some ch => deltaHasRole (ch.delta.getD emptyDelta)
  | none => false

/-- Does the chunk's first choice carry a truthy `finish_reason`? -/
def chunkFinishes (c : SChunk) : Bool :=
  match firstChoice c with
  | some ch =>
    match ch.finishReason with
    | some f => !(f == "")
    | none => false
  | none => false

/-- Does some processed tool-call entry carry a truthy `arguments` string
that `json.loads` rejects (so that processing the chunk raises)? -/
def tcsAbort {J : Type} (jp : String → Option J) : List SToolCall → Bool
  | [] => false
  | tc :: rest =>
    match tc.function_ with
    | none => tcsAbort jp rest
    | some f =>
      match f.arguments with
      | some s =>
        if s = "" then tcsAbort jp rest
        else
          match jp s with
          | none => true
          | some _ => tcsAbort jp rest
      | none => tcsAbort jp rest

/-- Does processing the chunk raise inside the tool-call loop? -/
def chunkAborts {J : Type} (jp : String → Option J) (c : SChunk) : Bool :=
  match firstChoice c with
  | some ch =>
    match (ch.delta.getD emptyDelta).toolCalls with
    | some tcs => tcsAbort jp tcs
    | none => false
  | none => false

/-- The state after the role/content/tool-call part of a chunk. -/
def bodyState {J : Type} (jp : String → Option J) (je : J) (st : TState J)
    (c : SChunk) : TState J :=
  match c.choices with
  | some (ch :: _) => (chunkBody jp je st c ch).1
  | _ => st

/-- The events emitted by the role/content/tool-call part of a chunk. -/
def bodyEvents {J : Type} (jp : String → Option J) (je : J) (st : TState J)
    (c : SChunk) : List (SEvent J) :=
  match c.choices with
  | some (ch :: _) => (chunkBody jp je st c ch).2.1
  | _ => []

/-- The finish-reason string of the chunk's first choice (`""` when
absent). -/
def finishValOf (c : SChunk) : String :=
  match firstChoice c with
  | some ch => ch.finishReason.getD ""
  | none => ""

/-- The usage the finish block attaches to `MessageDelta`: the chunk's own
usage when present, otherwise whatever the message already carried. -/
def finishUsage {J : Type} (jp : String → Option J) (je : J) (st : TState J)
    (c : SChunk) : Option (Nat × Nat) :=
  match c.usage with
  | some ud => some (ud.promptTokens.getD 0, ud.completionTokens.getD 0)
  | none => (bodyState jp je st c).usage

/-! Concrete inputs for counterexamples and witnesses (`J := Unit`,
`jp := jpNone` is a JSON decoder that rejects every string it is fed —
the concrete streams below only feed it strings that are not valid
JSON). -/

/-- A JSON decoder rejecting its input (used only on malformed inputs). -/
def jpNone : String → Option Unit := fun _ => none

/-- A chunk carrying only `finish_reason: "stop"`. -/
def finChunkA : SChunk := ⟨none, none, some [⟨none, some "stop"⟩], none⟩

/-- A chunk carrying only `delta.role: "assistant"`. -/
def roleChunkA : SChunk :=
  ⟨some "chatcmpl-1", some "m",
   some [⟨some ⟨some "assistant", none, none⟩, none⟩], none⟩

/-- A tool-call entry whose `arguments` string is not valid JSON. -/
def badArgsEntry : SToolCall :=
  ⟨some "t", some ⟨some "f", some "\x7bbad json"⟩⟩

/-- A chunk whose only payload is a tool-call delta carrying
`badArgsEntry`, plus a finish reason. -/
def badToolChunkA : SChunk :=
  ⟨none, none, some [⟨some ⟨none, none, some [badArgsEntry]⟩, some "tool_calls"⟩],
   none⟩

/-- A non-streaming response whose single choice carries `badArgsEntry`
as its only tool call. -/
def badRespA : RResp :=
  ⟨none, none, some [⟨some ⟨none, some [badArgsEntry]⟩, none⟩], none⟩

/-! ## The stop-reason table (claim C5) -/

/-- A response whose single choice finishes with `"length"`. -/
def lenRespA : RResp := ⟨none, none, some [⟨none, some "length"⟩], none⟩

/-! ## The error mapper (claim C9) -/

/-- Modelled from the words of claim C9 (for comparison with the code):
the message is extracted from the body's `{error:{message}}`, else
`{message}`, else the literal `"Unknown error"`. -/
def c9ClaimMessage (body : Option ErrBody) : String :=
  match body with
  | none => "Unknown error"
  | some b =>
    match b.error with
    | some (ErrVal.vdict (some m)) => m
    | _ =>
      match b.message with
      | some m => m
      | none => "Unknown error"

/-- A source request whose `tool_choice` is the present-but-falsy empty
string. -/
def paramsEmptyTC : AParams Unit Unit :=
  ⟨"m", [], none, none, none, none, none, none, none, some (TCVal.str ""), []⟩

/-- A source request whose `tool_choice` is the string `"any"`. -/
def paramsAnyTC : AParams Unit Unit :=
  ⟨"m", [], none, none, none, none, none, none, none, some (TCVal.str "any"), []⟩

theorem splitOnceNN_shape (s r rest : List Char)
    (h : splitOnceNN s = some (r, rest)) : s = r ++ '\n' :: '\n' :: rest := by
  induction s generalizing r rest with
  | nil => simp [splitOnceNN] at h
  | cons c s ih =>
    rw [splitOnceNN] at h
    split at h
    · rename_i hc
      obtain ⟨hc1, hc2⟩ := hc
      obtain ⟨s', hs'⟩ : ∃ s', s = '\n' :: s' := by
        cases s with
        | nil => simp at hc2
        | cons x xs => simp at hc2; exact ⟨xs, by rw [hc2]⟩
      subst hs'
      simp at h
      obtain ⟨h1, h2⟩ := h
      subst h1 h2 hc1
      simp
    · cases hm : splitOnceNN s with
      | none => rw [hm] at h; simp at h
      | some p =>
        rw [hm] at h
        simp at h
        obtain ⟨h1, h2⟩ := h
        have := ih p.1 p.2 (by rw [hm])
        subst h2
        rw [this, ← h1]
        simp

theorem splitOnceNN_some_length (s r rest : List Char)
    (h : splitOnceNN s = some (r, rest)) : rest.length < s.length := by
  have := splitOnceNN_shape s r rest h
  subst this
  simp
  omega

theorem splitOnceNN_append_some (s t r rest : List Char)
    (h : splitOnceNN s = some (r, rest)) :
    splitOnceNN (s ++ t) = some (r, rest ++ t) := by
  induction s generalizing r rest with
  | nil => simp [splitOnceNN] at h
  | cons c s ih =>
    rw [splitOnceNN] at h
    rw [List.cons_append, splitOnceNN]
    split at h
    · rename_i hc
      obtain ⟨hc1, hc2⟩ := hc
      obtain ⟨s', hs'⟩ : ∃ s', s = '\n' :: s' := by
        cases s with
        | nil => simp at hc2
        | cons x xs => simp at hc2; exact ⟨xs, by rw [hc2]⟩
      subst hs'
      simp at h ⊢
      obtain ⟨h1, h2⟩ := h
      subst hc1
      simp [← h1, ← h2]
    · rename_i hc
      rw [if_neg (by
        intro hcon
        obtain ⟨hc1, hc2⟩ := hcon
        apply hc
        refine ⟨hc1, ?_⟩
        cases s with
        | nil => simp [splitOnceNN] at h
        | cons x xs => simpa using hc2)]
      cases hm : splitOnceNN s with
      | none => rw [hm] at h; simp at h
      | some p =>
        rw [hm] at h
        simp at h
        obtain ⟨h1, h2⟩ := h
        have := ih p.1 p.2 (by rw [hm])
        rw [this]
        simp [← h1, ← h2]

theorem splitOnceNN_append_one (a : List Char) (c : Char)
    (hn : splitOnceNN a = none)
    (hj : a.getLast? ≠ some '\n' ∨ c ≠ '\n') :
    splitOnceNN (a ++ [c]) = none := by
  induction a with
  | nil =>
    rw [List.nil_append, splitOnceNN]
    simp [splitOnceNN]
  | cons x a ih =>
    rw [splitOnceNN] at hn
    split at hn
    · simp at hn
    · rename_i hc
      have ha : splitOnceNN a = none := by
        cases hm : splitOnceNN a with
        | none => rfl
        | some p => rw [hm] at hn; simp at hn
      rw [List.cons_append, splitOnceNN]
      rw [if_neg (by
        intro hcon
        obtain ⟨hc1, hc2⟩ := hcon
        cases a with
        | nil =>
          simp at hc2
          rcases hj with hj | hj
          · simp at hj; exact hj hc1
          · exact hj hc2
        | cons y ys =>
          apply hc
          refine ⟨hc1, ?_⟩
          simpa using hc2)]
      have hj' : a.getLast? ≠ some '\n' ∨ c ≠ '\n' := by
        cases a with
        | nil => rcases hj with hj | hj
                 · left; simp
                 · right; exact hj
        | cons y ys =>
          rcases hj with hj | hj
          · left; rw [List.getLast?_cons_cons] at hj; exact hj
          · right; exact hj
      rw [ih ha hj']
      rfl

theorem splitOnceNN_append_delim (a x : List Char)
    (hn : splitOnceNN a = none)
    (hl : a.getLast? ≠ some '\n') :
    splitOnceNN (a ++ '\n' :: '\n' :: x) = some (a, x) := by
  induction a with
  | nil => simp [splitOnceNN]
  | cons y a ih =>
    rw [splitOnceNN] at hn
    split at hn
    · simp at hn
    · rename_i hc
      have ha : splitOnceNN a = none := by
        cases hm : splitOnceNN a with
        | none => rfl
        | some p => rw [hm] at hn; simp at hn
      rw [List.cons_append, splitOnceNN]
      rw [if_neg (by
        intro hcon
        obtain ⟨hc1, hc2⟩ := hcon
        cases a with
        | nil =>
          simp at hl
          exact hl hc1
        | cons z zs =>
          apply hc
          refine ⟨hc1, ?_⟩
          simpa using hc2)]
      have hl' : a.getLast? ≠ some '\n' := by
        cases a with
        | nil => simp
        | cons z zs => rw [List.getLast?_cons_cons] at hl; exact hl
      rw [ih ha hl']
      rfl

theorem drainSpec_none (s : List Char) (h : splitOnceNN s = none) :
    drainSpec s = ([], s) := by
  rw [drainSpec, h]

theorem drainSpec_some (s r rest : List Char)
    (h : splitOnceNN s = some (r, rest)) :
    drainSpec s = (r :: (drainSpec rest).1, (drainSpec rest).2) := by
  rw [drainSpec, h]

theorem drainAux_eq_drainSpec (cur s : List Char)
    (hn : splitOnceNN cur.reverse = none)
    (hj : cur.head? ≠ some '\n' ∨ s.head? ≠ some '\n') :
    drainAux cur s = drainSpec (cur.reverse ++ s) := by
  induction cur, s using drainAux.induct with
  | case1 cur =>
    rw [drainAux, List.append_nil, drainSpec_none cur.reverse hn]
  | case2 cur c =>
    rw [drainAux]
    have : splitOnceNN (cur.reverse ++ [c]) = none := by
      apply splitOnceNN_append_one cur.reverse c hn
      rcases hj with hj | hj
      · left; rwa [List.getLast?_reverse]
      · right; simpa using hj
    rw [drainSpec_none _ this]
    simp
  | case3 cur c d rest hcd ih =>
    obtain ⟨hc, hd⟩ := hcd
    subst hc hd
    have hcur : cur.head? ≠ some '\n' := by
      rcases hj with hj | hj
      · exact hj
      · simp at hj
    rw [drainAux, if_pos ⟨rfl, rfl⟩]
    have hdel : splitOnceNN (cur.reverse ++ '\n' :: '\n' :: rest) =
        some (cur.reverse, rest) := by
      apply splitOnceNN_append_delim cur.reverse rest hn
      rwa [List.getLast?_reverse]
    rw [drainSpec_some _ _ _ hdel]
    have ihr := ih rfl (by left; simp)
    simp at ihr
    rw [ihr]
  | case4 cur c d rest hcd ih =>
    rw [drainAux, if_neg hcd]
    have hn' : splitOnceNN (c :: cur).reverse = none := by
      rw [List.reverse_cons]
      apply splitOnceNN_append_one cur.reverse c hn
      by_cases hc : c = '\n'
      · left
        rw [List.getLast?_reverse]
        rcases hj with hj | hj
        · exact hj
        · subst hc; simp at hj
      · right; exact hc
    have hj' : (c :: cur).head? ≠ some '\n' ∨ (d :: rest).head? ≠ some '\n' := by
      by_cases hc : c = '\n'
      · right
        subst hc
        simp
        intro hd
        exact hcd ⟨rfl, hd⟩
      · left; simpa using hc
    rw [ih hn' hj']
    simp

theorem drainAux_nil_eq (s : List Char) : drainAux [] s = drainSpec s := by
  have := drainAux_eq_drainSpec [] s (by rfl) (by left; simp)
  simpa using this

theorem drainSpec_rem_none (s : List Char) :
    splitOnceNN (drainSpec s).2 = none := by
  induction s using drainSpec.induct with
  | case1 s h => rw [drainSpec_none s h]; exact h
  | case2 s p h ih =>
    rw [drainSpec_some s p.1 p.2 (by rw [h])]
    exact ih

theorem drainSpec_append (s t : List Char) :
    drainSpec (s ++ t) =
      ((drainSpec s).1 ++ (drainSpec ((drainSpec s).2 ++ t)).1,
       (drainSpec ((drainSpec s).2 ++ t)).2) := by
  induction s using drainSpec.induct with
  | case1 s h =>
    rw [drainSpec_none s h]
    simp
  | case2 s p h ih =>
    have hsome := splitOnceNN_append_some s t p.1 p.2 (by rw [h])
    rw [drainSpec_some _ _ _ hsome, drainSpec_some s p.1 p.2 (by rw [h]), ih]
    simp

theorem emitRecords_append (rs more : List (List Char)) :
    emitRecords (rs ++ more) =
      if (procRecords rs).2 then (procRecords rs).1
      else (procRecords rs).1 ++ emitRecords more := by
  induction rs with
  | nil => simp [procRecords, emitRecords]
  | cons r rest ih =>
    rw [List.cons_append]
    cases hp : parseEvent r with
    | none =>
      simp only [emitRecords, procRecords, hp]
      exact ih
    | some ev =>
      by_cases hd : evDone ev
      · simp [emitRecords, procRecords, hp, hd]
      · cases hds : ev.dataStr with
        | some d =>
          simp only [emitRecords, procRecords, hp, hd, hds, Bool.false_eq_true,
            if_false]
          rw [ih]
          split <;> simp
        | none =>
          simp only [emitRecords, procRecords, hp, hd, hds, Bool.false_eq_true,
            if_false]
          exact ih

theorem emitRecords_eq_proc (rs : List (List Char)) :
    emitRecords rs = (procRecords rs).1 := by
  have := emitRecords_append rs []
  simp only [List.append_nil, emitRecords] at this
  rw [this]
  split <;> simp

theorem sseStream_eq (cs : List (List Char)) :
    ∀ b, splitOnceNN b = none →
      sseStream b cs = emitRecords (drainSpec (b ++ cs.flatten)).1 := by
  induction cs with
  | nil =>
    intro b hb
    rw [sseStream]
    rw [List.flatten_nil, List.append_nil, drainSpec_none b hb]
    rfl
  | cons c cs ih =>
    intro b hb
    rw [sseStream]
    simp only [drainAux_nil_eq]
    rw [List.flatten_cons, ← List.append_assoc, drainSpec_append (b ++ c),
      emitRecords_append]
    have hrem := drainSpec_rem_none (b ++ c)
    rw [ih _ hrem]

/-- Claim C4 (amended): on every fragment list, the generator's output
equals the record-level emission over the complete double-newline-delimited
records of the concatenated input — so the output is independent of
fragment boundaries (partial tails are buffered), payloads come in input
order, the non-delimited remainder is discarded undecoded, and emission
stops at the first done record (one whose concatenated data payload is
`[DONE]`, or more generally whose decoded event carries an `event` field
equal to `done`); moreover, once the complete records of the input contain
a done record, appending arbitrary further fragments leaves the output
unchanged. -/
theorem c4_amended :
    (∀ chunks : List (List Char),
       parseOpenAIStreamingResponse chunks =
         emitRecords (completeRecords chunks.flatten)) ∧
    (∀ chunks more : List (List Char),
       (procRecords (completeRecords chunks.flatten)).2 = true →
       parseOpenAIStreamingResponse (chunks ++ more) =
         parseOpenAIStreamingResponse chunks) := by
  have h1 : ∀ chunks : List (List Char),
      parseOpenAIStreamingResponse chunks =
        emitRecords (drainSpec chunks.flatten).1 := by
    intro chunks
    have := sseStream_eq chunks [] (by rfl)
    simpa [parseOpenAIStreamingResponse] using this
  have hcr : ∀ s, completeRecords s = (drainSpec s).1 := by
    intro s; rw [completeRecords, drainAux_nil_eq]
  constructor
  · intro chunks; rw [h1, hcr]
  · intro chunks more hdone
    rw [hcr] at hdone
    rw [h1, h1, List.flatten_append, drainSpec_append]
    simp only []
    rw [emitRecords_append, if_pos hdone, emitRecords_eq_proc]

/-- Claim C4 witness: a stream whose records contain the `[DONE]` sentinel
followed by a further complete record yields nothing for the extra
fragments. -/
theorem c4_witness :
    (procRecords (completeRecords
        (List.flatten [("data: a\n\ndata: [DONE]\n\n").toList]))).2 = true ∧
    parseOpenAIStreamingResponse
        ([("data: a\n\ndata: [DONE]\n\n").toList] ++ [("data: b\n\n").toList]) =
      parseOpenAIStreamingResponse [("data: a\n\ndata: [DONE]\n\n").toList] :=
  ⟨by decide, c4_amended.2 _ _ (by decide)⟩

/-- Claim C4 counterexample: on the input `"event: done\n\ndata: hi\n\n"`
the code yields nothing (the first record decodes to an event whose
`event` field is `done`, which terminates the generator), while the claim
as stated — terminate only on a record whose concatenated data payload is
`[DONE]`, yield the data payloads of all other complete records — demands
the output `["hi"]`. -/
theorem c4_counterexample :
    parseOpenAIStreamingResponse [("event: done\n\ndata: hi\n\n").toList] = [] ∧
    claimEmitRecords (completeRecords
        (List.flatten [("event: done\n\ndata: hi\n\n").toList])) =
      [("hi").toList] ∧
    ([] : List (List Char)) ≠ [("hi").toList] :=
  ⟨by decide, by decide, by decide⟩

theorem runTransducer_append {J : Type} (jp : String → Option J) (je : J)
    (xs ys : List SChunk) : ∀ st : TState J,
    runTransducer jp je st (xs ++ ys) =
      runTransducer jp je st xs ++ runTransducer jp je (foldState jp je st xs) ys := by
  induction xs with
  | nil => intro st; simp [runTransducer, foldState]
  | cons c xs ih =>
    intro st
    simp only [List.cons_append, runTransducer, foldState, List.append_eq]
    rw [ih]
    simp

theorem stepToolCalls_abort {J : Type} (jp : String → Option J) (je : J)
    (tcs : List SToolCall) : ∀ (st : TState J) (i : Nat),
    (stepToolCalls jp je st i tcs).2.2 = tcsAbort jp tcs := by
  induction tcs with
  | nil => intro st i; rfl
  | cons tc rest ih =>
    intro st i
    cases hfn : tc.function_ with
    | none => simp only [stepToolCalls, tcsAbort, hfn]; exact ih st (i + 1)
    | some f =>
      cases hargs : f.arguments with
      | none => simp only [stepToolCalls, tcsAbort, hfn, hargs]; exact ih _ _
      | some s =>
        by_cases hs : s = ""
        · simp only [stepToolCalls, tcsAbort, hfn, hargs, hs, if_pos rfl]
          exact ih _ _
        · cases hjp : jp s with
          | none => simp [stepToolCalls, tcsAbort, hfn, hargs, hs, hjp]
          | some j =>
            simp only [stepToolCalls, tcsAbort, hfn, hargs, if_neg hs, hjp]
            exact ih _ _

theorem stepToolCalls_counts {J : Type} (jp : String → Option J) (je : J)
    (tcs : List SToolCall) : ∀ (st : TState J) (i : Nat),
    ((stepToolCalls jp je st i tcs).2.1.countP isStopLike = 0 ∧
     (stepToolCalls jp je st i tcs).2.1.countP isMessageStartEv = 0) := by
  induction tcs with
  | nil => intro st i; simp [stepToolCalls]
  | cons tc rest ih =>
    intro st i
    cases hfn : tc.function_ with
    | none => simpa only [stepToolCalls, hfn] using ih st (i + 1)
    | some f =>
      cases hargs : f.arguments with
      | none =>
        by_cases hble : st.blocks.length ≤ i <;>
          simpa [stepToolCalls, hfn, hargs, hble, isStopLike, isMessageStartEv,
            List.countP_cons, List.countP_append] using ih _ (i + 1)
      | some s =>
        by_cases hs : s = ""
        · by_cases hble : st.blocks.length ≤ i <;>
            simpa [stepToolCalls, hfn, hargs, hs, hble, isStopLike, isMessageStartEv,
              List.countP_cons, List.countP_append] using ih _ (i + 1)
        · cases hjp : jp s with
          | none => simp [stepToolCalls, hfn, hargs, hs, hjp]
          | some j =>
            by_cases hble : st.blocks.length ≤ i <;>
              simpa [stepToolCalls, hfn, hargs, hs, hjp, hble, isStopLike,
                isMessageStartEv, List.countP_cons, List.countP_append] using ih _ (i + 1)

theorem stepRole_counts {J : Type} (st : TState J) (c : SChunk) (d : SDelta) :
    ((stepRole st c d).2.countP isStopLike = 0 ∧
     (stepRole st c d).2.countP isMessageStartEv =
       if deltaHasRole d then 1 else 0) := by
  cases hr : d.role with
  | none => simp [stepRole, deltaHasRole, hr]
  | some r =>
    by_cases hre : r = "" <;>
      simp [stepRole, deltaHasRole, hr, hre, isStopLike, isMessageStartEv]

theorem stepContent_counts {J : Type} (st : TState J) (d : SDelta) :
    ((stepContent st d).2.countP isStopLike = 0 ∧
     (stepContent st d).2.countP isMessageStartEv = 0) := by
  cases hc : d.content with
  | none => simp [stepContent, hc]
  | some s =>
    by_cases hs : s = ""
    · simp [stepContent, hc, hs]
    · by_cases hb : st.blocks.isEmpty <;>
        simp [stepContent, hc, hs, hb, isStopLike, isMessageStartEv]

theorem chunkBody_counts {J : Type} (jp : String → Option J) (je : J)
    (st : TState J) (c : SChunk) (ch : SChoice) :
    ((chunkBody jp je st c ch).2.1.countP isStopLike = 0 ∧
     (chunkBody jp je st c ch).2.1.countP isMessageStartEv =
       if deltaHasRole (ch.delta.getD emptyDelta) then 1 else 0) := by
  have h1 := stepRole_counts st c (ch.delta.getD emptyDelta)
  have h2 := stepContent_counts (stepRole st c (ch.delta.getD emptyDelta)).1
    (ch.delta.getD emptyDelta)
  cases htc : (ch.delta.getD emptyDelta).toolCalls with
  | none =>
    simp only [chunkBody, htc, List.countP_append]
    constructor
    · omega
    · omega
  | some tcs =>
    simp only [chunkBody, htc, List.countP_append]
    have h3 := stepToolCalls_counts jp je tcs
      (stepContent (stepRole st c (ch.delta.getD emptyDelta)).1
        (ch.delta.getD emptyDelta)).1 0
    constructor
    · omega
    · omega

theorem chunkBody_abort {J : Type} (jp : String → Option J) (je : J)
    (st : TState J) (c : SChunk) (ch : SChoice) :
    (chunkBody jp je st c ch).2.2 =
      match (ch.delta.getD emptyDelta).toolCalls with
      | some tcs => tcsAbort jp tcs
      | none => false := by
  cases htc : (ch.delta.getD emptyDelta).toolCalls with
  | none => simp [chunkBody, htc]
  | some tcs => simp [chunkBody, htc, stepToolCalls_abort]

theorem processChunk_events_eq {J : Type} (jp : String → Option J) (je : J)
    (st : TState J) (c : SChunk) (hfin : chunkFinishes c = true)
    (hab : chunkAborts jp c = false) :
    (processChunk jp je st c).2 =
      bodyEvents jp je st c ++
        (List.range (bodyState jp je st c).blocks.length).map SEvent.contentBlockStop ++
        [SEvent.messageDelta (some (stopReasonGet (finishValOf c)))
           (finishUsage jp je st c),
         SEvent.messageStop] := by
  cases hch : c.choices with
  | none => simp [chunkFinishes, firstChoice, hch] at hfin
  | some chs =>
    cases chs with
    | nil => simp [chunkFinishes, firstChoice, hch] at hfin
    | cons ch rest =>
      have hfc : firstChoice c = some ch := by simp [firstChoice, hch]
      cases hfr : ch.finishReason with
      | none => simp [chunkFinishes, hfc, hfr] at hfin
      | some f =>
        have hf : ¬(f = "") := by
          simp [chunkFinishes, hfc, hfr] at hfin
          simpa using hfin
        have habody : (chunkBody jp je st c ch).2.2 = false := by
          rw [chunkBody_abort]
          simpa [chunkAborts, hfc] using hab
        simp only [processChunk, hch, habody, Bool.false_eq_true, if_false,
          finishStep, hfr, hf, bodyEvents, bodyState, finishValOf, hfc,
          finishUsage, Option.getD_some]
        cases hu : c.usage with
        | none => simp [hu, List.append_assoc]
        | some ud => simp [hu, List.append_assoc]

theorem processChunk_no_stop {J : Type} (jp : String → Option J) (je : J)
    (st : TState J) (c : SChunk) (hfin : chunkFinishes c = false) :
    (processChunk jp je st c).2.countP isStopLike = 0 := by
  cases hch : c.choices with
  | none => simp [processChunk, hch]
  | some chs =>
    cases chs with
    | nil => simp [processChunk, hch]
    | cons ch rest =>
      have hfc : firstChoice c = some ch := by simp [firstChoice, hch]
      have hb := chunkBody_counts jp je st c ch
      have hfinstep : (finishStep (chunkBody jp je st c ch).1 ch.finishReason
          c.usage).2 = [] := by
        cases hfr : ch.finishReason with
        | none => simp [finishStep]
        | some f =>
          have : f = "" := by
            simp [chunkFinishes, hfc, hfr] at hfin
            simpa using hfin
          simp [finishStep, this]
      by_cases hab : (chunkBody jp je st c ch).2.2 = true
      · simp only [processChunk, hch, hab, if_true]
        exact hb.1
      · simp only [processChunk, hch, Bool.not_eq_true] at hab
        simp only [processChunk, hch, hab, Bool.false_eq_true, if_false,
          hfinstep, List.countP_append, List.append_nil]
        simp [hb.1, hfinstep]

theorem processChunk_ms_count {J : Type} (jp : String → Option J) (je : J)
    (st : TState J) (c : SChunk) :
    (processChunk jp je st c).2.countP isMessageStartEv =
      if chunkHasRole c then 1 else 0 := by
  cases hch : c.choices with
  | none => simp [processChunk, hch, chunkHasRole, firstChoice]
  | some chs =>
    cases chs with
    | nil => simp [processChunk, hch, chunkHasRole, firstChoice]
    | cons ch rest =>
      have hfc : firstChoice c = some ch := by simp [firstChoice, hch]
      have hb := chunkBody_counts jp je st c ch
      have hrole : chunkHasRole c = deltaHasRole (ch.delta.getD emptyDelta) := by
        simp [chunkHasRole, hfc]
      have hfinstep : ∀ stx : TState J,
          (finishStep stx ch.finishReason c.usage).2.countP isMessageStartEv = 0 := by
        intro stx
        cases hfr : ch.finishReason with
        | none => simp [finishStep]
        | some f =>
          by_cases hf : f = ""
          · simp [finishStep, hf]
          · simp [finishStep, hf, List.countP_append, List.countP_map,
              isMessageStartEv, List.countP_cons]
      by_cases hab : (chunkBody jp je st c ch).2.2 = true
      · simp only [processChunk, hch, hab, if_true]
        rw [hb.2, hrole]
      · simp only [Bool.not_eq_true] at hab
        simp only [processChunk, hch, hab, Bool.false_eq_true, if_false,
          List.countP_append]
        rw [hb.2, hrole, hfinstep]
        omega

theorem runTransducer_stop_count {J : Type} (jp : String → Option J) (je : J)
    (cs : List SChunk) (h : ∀ c ∈ cs, chunkFinishes c = false) :
    ∀ st : TState J, (runTransducer jp je st cs).countP isStopLike = 0 := by
  induction cs with
  | nil => intro st; simp [runTransducer]
  | cons c cs ih =>
    intro st
    simp only [runTransducer, List.countP_append]
    rw [processChunk_no_stop jp je st c (h c (by simp)),
      ih (fun x hx => h x (by simp [hx]))]

theorem runTransducer_ms_count {J : Type} (jp : String → Option J) (je : J)
    (cs : List SChunk) : ∀ st : TState J,
    (runTransducer jp je st cs).countP isMessageStartEv =
      cs.countP chunkHasRole := by
  induction cs with
  | nil => intro st; simp [runTransducer]
  | cons c cs ih =>
    intro st
    simp only [runTransducer, List.countP_append, List.countP_cons]
    rw [processChunk_ms_count, ih]
    by_cases h : chunkHasRole c <;> simp [h] <;> omega

theorem msgstop_zero_of_stopLike {J : Type} (l : List (SEvent J))
    (h : l.countP isStopLike = 0) : l.countP isMessageStopEv = 0 := by
  rw [List.countP_eq_zero] at h ⊢
  intro a ha
  have hs := h a ha
  cases a <;> simp [isStopLike, isMessageStopEv] at hs ⊢

/-- Claim C1 counterexample: the transducer does not terminate after
emitting `MessageStop` (there is no `return` after line 207 of
`streaming.py`), so a second finish-bearing chunk is still processed and
yields a second `MessageDelta`/`MessageStop` pair — `MessageStop` occurs
twice, and events are emitted after the first `MessageStop`, contradicting
the claim. -/
theorem c1_counterexample :
    transformOpenaiStreamToAnthropic jpNone () [finChunkA, finChunkA] =
      [SEvent.messageDelta (some "end_turn") none, SEvent.messageStop,
       SEvent.messageDelta (some "end_turn") none, SEvent.messageStop] ∧
    (transformOpenaiStreamToAnthropic jpNone () [finChunkA, finChunkA]).countP
        isMessageStopEv = 2 :=
  ⟨by decide, by decide⟩

/-- Claim C1 (amended): on processing a chunk whose first choice carries a
truthy finish_reason and whose tool-call entries all parse, the transducer
emits — after the chunk's role/content/tool-call events — one
`ContentBlockStop` for every currently open block index in ascending
order, then one `MessageDelta` carrying the mapped stop reason and the
chunk's usage (or the usage already recorded when the chunk carries none),
then one `MessageStop`; the transducer is not terminated by this and keeps
processing subsequent chunks, so `MessageStop` is unique and final exactly
in streams where the finish-bearing chunk is last and no earlier chunk
carried a finish_reason. -/
theorem c1_amended {J : Type} (jp : String → Option J) (je : J)
    (pre : List SChunk) (f : SChunk)
    (h1 : ∀ c ∈ pre, chunkFinishes c = false)
    (h2 : chunkFinishes f = true)
    (h3 : chunkAborts jp f = false) :
    transformOpenaiStreamToAnthropic jp je (pre ++ [f]) =
      transformOpenaiStreamToAnthropic jp je pre ++
        bodyEvents jp je (foldState jp je TState.init pre) f ++
        (List.range (bodyState jp je (foldState jp je TState.init pre) f).blocks.length).map
          SEvent.contentBlockStop ++
        [SEvent.messageDelta (some (stopReasonGet (finishValOf f)))
           (finishUsage jp je (foldState jp je TState.init pre) f),
         SEvent.messageStop] ∧
    (transformOpenaiStreamToAnthropic jp je (pre ++ [f])).countP isMessageStopEv = 1 ∧
    (transformOpenaiStreamToAnthropic jp je (pre ++ [f])).getLast? =
      some SEvent.messageStop := by
  have heq : transformOpenaiStreamToAnthropic jp je (pre ++ [f]) =
      transformOpenaiStreamToAnthropic jp je pre ++
        (processChunk jp je (foldState jp je TState.init pre) f).2 := by
    rw [transformOpenaiStreamToAnthropic, runTransducer_append]
    simp [runTransducer, transformOpenaiStreamToAnthropic]
  have hpc := processChunk_events_eq jp je (foldState jp je TState.init pre) f h2 h3
  have hpre0 : (transformOpenaiStreamToAnthropic jp je pre).countP isStopLike = 0 :=
    runTransducer_stop_count jp je pre h1 TState.init
  have hbody0 : (bodyEvents jp je (foldState jp je TState.init pre) f).countP
      isStopLike = 0 := by
    cases hch : f.choices with
    | none => simp [bodyEvents, hch]
    | some chs =>
      cases chs with
      | nil => simp [bodyEvents, hch]
      | cons ch rr =>
        simpa [bodyEvents, hch] using
          (chunkBody_counts jp je (foldState jp je TState.init pre) f ch).1
  refine ⟨?_, ?_, ?_⟩
  · rw [heq, hpc]
    simp [List.append_assoc]
  · rw [heq, hpc]
    simp only [List.countP_append]
    rw [msgstop_zero_of_stopLike _ hpre0, msgstop_zero_of_stopLike _ hbody0]
    simp [List.countP_map, isMessageStopEv, List.countP_cons, Function.comp]
  · rw [heq, hpc]
    have hre : transformOpenaiStreamToAnthropic jp je pre ++
        (bodyEvents jp je (foldState jp je TState.init pre) f ++
          (List.range (bodyState jp je (foldState jp je TState.init pre) f).blocks.length).map
            SEvent.contentBlockStop ++
          [SEvent.messageDelta (some (stopReasonGet (finishValOf f)))
             (finishUsage jp je (foldState jp je TState.init pre) f),
           SEvent.messageStop]) =
        (transformOpenaiStreamToAnthropic jp je pre ++
          bodyEvents jp je (foldState jp je TState.init pre) f ++
          (List.range (bodyState jp je (foldState jp je TState.init pre) f).blocks.length).map
            SEvent.contentBlockStop ++
          [SEvent.messageDelta (some (stopReasonGet (finishValOf f)))
             (finishUsage jp je (foldState jp je TState.init pre) f)]) ++
          [SEvent.messageStop] := by
      simp
    rw [hre, List.getLast?_concat]

/-- Claim C1 witness: the amended claim at the concrete one-chunk stream
`[finChunkA]` with an empty prefix. -/
theorem c1_witness :
    ((∀ c ∈ ([] : List SChunk), chunkFinishes c = false) ∧
     chunkFinishes finChunkA = true ∧ chunkAborts jpNone finChunkA = false) ∧
    (transformOpenaiStreamToAnthropic jpNone () ([] ++ [finChunkA]) =
      transformOpenaiStreamToAnthropic jpNone () [] ++
        bodyEvents jpNone () (foldState jpNone () TState.init []) finChunkA ++
        (List.range (bodyState jpNone () (foldState jpNone () TState.init [])
            finChunkA).blocks.length).map SEvent.contentBlockStop ++
        [SEvent.messageDelta (some (stopReasonGet (finishValOf finChunkA)))
           (finishUsage jpNone () (foldState jpNone () TState.init []) finChunkA),
         SEvent.messageStop] ∧
     (transformOpenaiStreamToAnthropic jpNone () ([] ++ [finChunkA])).countP
        isMessageStopEv = 1 ∧
     (transformOpenaiStreamToAnthropic jpNone () ([] ++ [finChunkA])).getLast? =
       some SEvent.messageStop) :=
  ⟨⟨by simp, by decide, by decide⟩,
   c1_amended jpNone () [] finChunkA (by simp) (by decide) (by decide)⟩

/-- Claim C2 counterexample: `MessageStart` is re-emitted on every chunk
whose delta carries a truthy role — there is no first-occurrence guard
(`streaming.py` line 128) — so two role-bearing chunks yield two
`MessageStart` events, contradicting "at most one" / "first occurrence
only". -/
theorem c2_counterexample :
    transformOpenaiStreamToAnthropic jpNone () [roleChunkA, roleChunkA] =
      [SEvent.messageStart "chatcmpl-1" "m" "assistant",
       SEvent.messageStart "chatcmpl-1" "m" "assistant"] ∧
    (transformOpenaiStreamToAnthropic jpNone () [roleChunkA, roleChunkA]).countP
        isMessageStartEv = 2 :=
  ⟨by decide, by decide⟩

/-- Claim C2 (amended): the transducer emits one `MessageStart` for every
processed chunk whose first choice's delta carries a truthy role — not
only for the first occurrence; consequently `MessageStart` is unique
exactly when one chunk carries a role, and when that chunk is the first of
the stream the unique `MessageStart` is the very first emitted event, so
it precedes every content-block event. -/
theorem c2_amended {J : Type} (jp : String → Option J) (je : J) :
    (∀ cs : List SChunk,
       (transformOpenaiStreamToAnthropic jp je cs).countP isMessageStartEv =
         cs.countP chunkHasRole) ∧
    (∀ (r : SChunk) (rest : List SChunk), chunkHasRole r = true →
       (∀ c ∈ rest, chunkHasRole c = false) →
       ∃ (i m ro : String) (tl : List (SEvent J)),
         transformOpenaiStreamToAnthropic jp je (r :: rest) =
           SEvent.messageStart i m ro :: tl ∧
         tl.countP isMessageStartEv = 0) := by
  constructor
  · intro cs
    exact runTransducer_ms_count jp je cs TState.init
  · intro r rest hrole hrest
    obtain ⟨ch, chs, hch⟩ : ∃ ch chs, r.choices = some (ch :: chs) := by
      cases hc : r.choices with
      | none => simp [chunkHasRole, firstChoice, hc] at hrole
      | some l =>
        cases l with
        | nil => simp [chunkHasRole, firstChoice, hc] at hrole
        | cons a b => exact ⟨a, b, rfl⟩
    have hfc : firstChoice r = some ch := by simp [firstChoice, hch]
    obtain ⟨rv, hrv, hrvne⟩ : ∃ rv, (ch.delta.getD emptyDelta).role = some rv ∧
        ¬(rv = "") := by
      cases hro : (ch.delta.getD emptyDelta).role with
      | none => simp [chunkHasRole, hfc, deltaHasRole, hro] at hrole
      | some rv =>
        refine ⟨rv, rfl, ?_⟩
        simp [chunkHasRole, hfc, deltaHasRole, hro] at hrole
        simpa using hrole
    have hbody : ∃ tl1, (chunkBody jp je TState.init r ch).2.1 =
        SEvent.messageStart (r.id.getD "") (r.model.getD "") rv :: tl1 := by
      cases htc : (ch.delta.getD emptyDelta).toolCalls with
      | none =>
        refine ⟨(stepContent (stepRole TState.init r
          (ch.delta.getD emptyDelta)).1 (ch.delta.getD emptyDelta)).2, ?_⟩
        simp [chunkBody, htc, stepRole, hrv, hrvne]
      | some tcs =>
        refine ⟨(stepContent (stepRole TState.init r
            (ch.delta.getD emptyDelta)).1 (ch.delta.getD emptyDelta)).2 ++
          (stepToolCalls jp je (stepContent (stepRole TState.init r
            (ch.delta.getD emptyDelta)).1 (ch.delta.getD emptyDelta)).1 0 tcs).2.1, ?_⟩
        simp [chunkBody, htc, stepRole, hrv, hrvne]
    obtain ⟨tl1, htl1⟩ := hbody
    have hhead : ∃ tl2, (processChunk jp je TState.init r).2 =
        SEvent.messageStart (r.id.getD "") (r.model.getD "") rv :: tl2 := by
      by_cases hab : (chunkBody jp je TState.init r ch).2.2 = true
      · exact ⟨tl1, by simp only [processChunk, hch, hab, if_true, htl1]⟩
      · simp only [Bool.not_eq_true] at hab
        refine ⟨tl1 ++ (finishStep (chunkBody jp je TState.init r ch).1
          ch.finishReason r.usage).2, ?_⟩
        simp only [processChunk, hch, hab, Bool.false_eq_true, if_false, htl1,
          List.cons_append]
    obtain ⟨tl2, htl2⟩ := hhead
    refine ⟨r.id.getD "", r.model.getD "", rv,
      tl2 ++ runTransducer jp je (processChunk jp je TState.init r).1 rest, ?_, ?_⟩
    · show (processChunk jp je TState.init r).2 ++
        runTransducer jp je (processChunk jp je TState.init r).1 rest = _
      rw [htl2]
      simp
    · have htotal := runTransducer_ms_count jp je (r :: rest) TState.init
      have hrest0 : rest.countP chunkHasRole = 0 :=
        List.countP_eq_zero.2 (by intro a ha; simp [hrest a ha])
      rw [List.countP_cons] at htotal
      have : (runTransducer jp je TState.init (r :: rest)).countP
          isMessageStartEv = 1 := by
        rw [htotal, hrest0, hrole]
        simp
      have hshape : runTransducer jp je TState.init (r :: rest) =
          SEvent.messageStart (r.id.getD "") (r.model.getD "") rv ::
            (tl2 ++ runTransducer jp je (processChunk jp je TState.init r).1 rest) := by
        show (processChunk jp je TState.init r).2 ++ _ = _
        rw [htl2]
        simp
      rw [hshape] at this
      simp [List.countP_cons, isMessageStartEv] at this
      rw [List.countP_eq_zero]
      intro a ha
      rcases List.mem_append.1 ha with h | h
      · simpa [isMessageStartEv] using this.1 a h
      · simpa [isMessageStartEv] using this.2 a h

/-- Claim C2 witness: the amended claim at the concrete one-chunk stream
`[roleChunkA]`. -/
theorem c2_witness :
    (chunkHasRole roleChunkA = true ∧
     (∀ c ∈ ([] : List SChunk), chunkHasRole c = false)) ∧
    (∃ (i m ro : String) (tl : List (SEvent Unit)),
       transformOpenaiStreamToAnthropic jpNone () [roleChunkA] =
         SEvent.messageStart i m ro :: tl ∧
       tl.countP isMessageStartEv = 0) :=
  ⟨⟨by decide, by simp⟩,
   (c2_amended jpNone ()).2 roleChunkA [] (by decide) (by simp)⟩

/-- Claim C3 counterexample: in the streaming path an unparseable
tool-call `arguments` string makes `json.loads` raise; the per-chunk
`except` catches it and skips the whole chunk, so no `ToolUse` block is
constructed and no `ContentBlockStart`/`ContentBlockDelta` is emitted for
the entry — contradicting the claim that the transducer constructs the
block with input `{}` and still emits its events. -/
theorem c3_counterexample :
    transformOpenaiStreamToAnthropic jpNone () [badToolChunkA] = [] ∧
    SEvent.contentBlockStart 0 (Blk.toolUse "t" "f" ()) ∉
      transformOpenaiStreamToAnthropic jpNone () [badToolChunkA] :=
  ⟨by decide, by decide⟩

/-- Claim C3 (amended): for a tool-call entry whose `arguments` string is
not valid JSON, the non-streaming response mapper never raises and appends
a `ToolUse` block whose input is the empty object; the stream transducer,
by contrast, aborts the chunk at the failing entry — emitting no events
for the chunk when the failing entry is its first payload — and continues
with the subsequent chunks. -/
theorem c3_amended {J : Type} (jp : String → Option J) (je : J) :
    (∀ (u : String) (r : RResp) (ch : RChoice) (chrest : List RChoice)
       (m : RMsg) (tcs : List SToolCall) (tc : SToolCall) (fn : SToolFunc)
       (s : String),
       r.choices = some (ch :: chrest) → ch.message = some m →
       m.toolCalls = some tcs → tc ∈ tcs → tc.function_ = some fn →
       fn.arguments = some s → jp s = none →
       Blk.toolUse (tc.id.getD "") (fn.name.getD "") je ∈
         (transformOpenaiToAnthropic jp je u r).content) ∧
    (∀ (st : TState J) (cs : List SChunk) (c : SChunk) (ch : SChoice)
       (chrest : List SChoice) (d : SDelta) (tcsRest : List SToolCall)
       (tc : SToolCall) (fn : SToolFunc) (s : String),
       c.choices = some (ch :: chrest) → ch.delta = some d →
       d.role = none → d.content = none → d.toolCalls = some (tc :: tcsRest) →
       tc.function_ = some fn → fn.arguments = some s → s ≠ "" → jp s = none →
       processChunk jp je st c = (st, []) ∧
       runTransducer jp je st (c :: cs) = runTransducer jp je st cs) := by
  constructor
  · intro u r ch chrest m tcs tc fn s hch hm htcs htc hfn hargs hjp
    have hne : tcs.isEmpty = false := by
      cases tcs with
      | nil => simp at htc
      | cons a b => rfl
    simp only [transformOpenaiToAnthropic, hch, hm, htcs, Option.getD_some,
      hne, Bool.false_eq_true, if_false]
    apply List.mem_append_right
    apply List.mem_filterMap.2
    refine ⟨tc, htc, ?_⟩
    simp [toolUseOfEntry, hfn, hargs, hjp]
  · intro st cs c ch chrest d tcsRest tc fn s hch hd hrole hcontent htc hfn hargs hs hjp
    have hbody : chunkBody jp je st c ch = (st, [], true) := by
      simp [chunkBody, hd, hrole, hcontent, htc, stepRole, stepContent,
        stepToolCalls, hfn, hargs, hs, hjp]
    constructor
    · simp [processChunk, hch, hbody]
    · show (processChunk jp je st c).2 ++
        runTransducer jp je (processChunk jp je st c).1 cs = _
      simp [processChunk, hch, hbody]

/-- Claim C3 witness: the amended claim at the concrete malformed entry
`badArgsEntry` (arguments `"\x7bbad json"`), in the response `badRespA`
and in the stream `[badToolChunkA]`. -/
theorem c3_witness :
    (jpNone "\x7bbad json" = none ∧
     Blk.toolUse "t" "f" () ∈
       (transformOpenaiToAnthropic jpNone () "u0" badRespA).content) ∧
    (processChunk jpNone () TState.init badToolChunkA = (TState.init, []) ∧
     runTransducer jpNone () TState.init [badToolChunkA] =
       runTransducer jpNone () TState.init []) :=
  ⟨⟨rfl,
    (c3_amended jpNone ()).1 "u0" badRespA _ [] _ [badArgsEntry] badArgsEntry _
      "\x7bbad json" rfl rfl rfl (by decide) rfl rfl rfl⟩,
   (c3_amended jpNone ()).2 TState.init [] badToolChunkA _ [] _ [] badArgsEntry _
     "\x7bbad json" rfl rfl rfl rfl rfl rfl rfl (by decide) rfl⟩

/-- Claim C5: `transform_openai_to_anthropic` maps `stop` to `end_turn`,
`length` to `max_tokens`, `tool_calls` and `function_call` to `tool_use`,
`content_filter` to `end_turn`, any other non-null finish_reason string to
`end_turn`, and an absent/null finish_reason to a null stop reason. -/
theorem c5_theorem {J : Type} (jp : String → Option J) (je : J)
    (u : String) (r : RResp) (ch : RChoice) (chrest : List RChoice)
    (h : r.choices = some (ch :: chrest)) :
    (ch.finishReason = some "stop" →
       (transformOpenaiToAnthropic jp je u r).stopReason = some "end_turn") ∧
    (ch.finishReason = some "length" →
       (transformOpenaiToAnthropic jp je u r).stopReason = some "max_tokens") ∧
    (ch.finishReason = some "tool_calls" →
       (transformOpenaiToAnthropic jp je u r).stopReason = some "tool_use") ∧
    (ch.finishReason = some "function_call" →
       (transformOpenaiToAnthropic jp je u r).stopReason = some "tool_use") ∧
    (ch.finishReason = some "content_filter" →
       (transformOpenaiToAnthropic jp je u r).stopReason = some "end_turn") ∧
    (∀ s : String,
       s ∉ (["stop", "length", "tool_calls", "function_call",
             "content_filter"] : List String) →
       ch.finishReason = some s →
       (transformOpenaiToAnthropic jp je u r).stopReason = some "end_turn") ∧
    (ch.finishReason = none →
       (transformOpenaiToAnthropic jp je u r).stopReason = none) := by
  have hsr : (transformOpenaiToAnthropic jp je u r).stopReason =
      mapFinishReasonToStopReason ch.finishReason := by
    simp [transformOpenaiToAnthropic, h]
  refine ⟨?_, ?_, ?_, ?_, ?_, ?_, ?_⟩
  · intro hfr; rw [hsr, hfr]; rfl
  · intro hfr; rw [hsr, hfr]; rfl
  · intro hfr; rw [hsr, hfr]; rfl
  · intro hfr; rw [hsr, hfr]; rfl
  · intro hfr; rw [hsr, hfr]; rfl
  · intro s hs hfr
    rw [hsr, hfr]
    simp only [List.mem_cons, List.mem_singleton, not_or] at hs
    obtain ⟨n1, n2, n3, n4, n5⟩ := hs
    have b1 : (s == "stop") = false := beq_eq_false_iff_ne.2 n1
    have b2 : (s == "length") = false := beq_eq_false_iff_ne.2 n2
    have b3 : (s == "tool_calls") = false := beq_eq_false_iff_ne.2 n3
    have b4 : (s == "function_call") = false := beq_eq_false_iff_ne.2 n4
    have b5 : (s == "content_filter") = false := beq_eq_false_iff_ne.2 n5.1
    simp [mapFinishReasonToStopReason, stopReasonGet,
      openaiToAnthropicStopReasonMap, List.lookup, b1, b2, b3, b4, b5]
  · intro hfr; rw [hsr, hfr]; rfl

/-- Claim C5 witness: the table at the concrete finish reason `"length"`. -/
theorem c5_witness :
    lenRespA.choices = some (⟨none, some "length"⟩ :: []) ∧
    (transformOpenaiToAnthropic jpNone () "u0" lenRespA).stopReason =
      some "max_tokens" :=
  ⟨rfl,
   (c5_theorem jpNone () "u0" lenRespA ⟨none, some "length"⟩ [] rfl).2.1 rfl⟩

/-! ## Response-mapper defaults (claim C8) -/

/-- Claim C8: `transform_openai_to_anthropic` keeps the response's id when
present, otherwise synthesizes `"msg_" ++ uuid4().hex` — non-empty and
injective in the random digest, with the distinct `msg_` prefix; `model`
defaults to `"unknown"`; usage token counts default to 0; and empty or
absent `choices` (and a choice with no content and no tool calls) yield an
empty content sequence. -/
theorem c8_theorem {J : Type} (jp : String → Option J) (je : J) :
    (∀ (u : String) (r : RResp) (i : String), r.id = some i →
       (transformOpenaiToAnthropic jp je u r).id = i) ∧
    (∀ (u : String) (r : RResp), r.id = none →
       (transformOpenaiToAnthropic jp je u r).id = "msg_" ++ u ∧
       (transformOpenaiToAnthropic jp je u r).id ≠ "") ∧
    (Function.Injective fun u : String => "msg_" ++ u) ∧
    (∀ (u : String) (r : RResp), r.model = none →
       (transformOpenaiToAnthropic jp je u r).model = "unknown") ∧
    (∀ (u : String) (r : RResp), r.usage = none →
       (transformOpenaiToAnthropic jp je u r).usage = (0, 0)) ∧
    (∀ (u : String) (r : RResp) (ud : SUsage), r.usage = some ud →
       (transformOpenaiToAnthropic jp je u r).usage =
         (ud.promptTokens.getD 0, ud.completionTokens.getD 0)) ∧
    (∀ (u : String) (r : RResp), (r.choices = none ∨ r.choices = some []) →
       (transformOpenaiToAnthropic jp je u r).content = []) ∧
    (∀ (u : String) (r : RResp) (ch : RChoice) (chrest : List RChoice)
       (m : RMsg), r.choices = some (ch :: chrest) → ch.message = some m →
       (m.content = none ∨ m.content = some "") →
       (m.toolCalls = none ∨ m.toolCalls = some []) →
       (transformOpenaiToAnthropic jp je u r).content = []) := by
  refine ⟨?_, ?_, ?_, ?_, ?_, ?_, ?_, ?_⟩
  · intro u r i h; simp [transformOpenaiToAnthropic, h]
  · intro u r h
    constructor
    · simp [transformOpenaiToAnthropic, h]
    · simp only [transformOpenaiToAnthropic, h, Option.getD_none]
      intro hcon
      have hlen : ("msg_" ++ u).length = 0 := by rw [hcon]; rfl
      rw [String.length_append] at hlen
      have h4 : ("msg_" : String).length = 4 := rfl
      omega
  · intro a b hab
    apply String.ext
    have := congrArg String.data hab
    simpa [String.data_append] using this
  · intro u r h; simp [transformOpenaiToAnthropic, h]
  · intro u r h; simp [transformOpenaiToAnthropic, h]
  · intro u r ud h; simp [transformOpenaiToAnthropic, h]
  · intro u r h
    rcases h with h | h <;> simp [transformOpenaiToAnthropic, h, emptyRChoice]
  · intro u r ch chrest m hch hm hc ht
    rcases hc with hc | hc <;> rcases ht with ht | ht <;>
      simp [transformOpenaiToAnthropic, hch, hm, hc, ht]

/-- Claim C8 witness: the defaults at the fully-absent response. -/
theorem c8_witness :
    ((⟨none, none, none, none⟩ : RResp).id = none ∧
     (transformOpenaiToAnthropic jpNone () "u123" ⟨none, none, none, none⟩).id =
       "msg_" ++ "u123" ∧
     (transformOpenaiToAnthropic jpNone () "u123" ⟨none, none, none, none⟩).id ≠ "") ∧
    (transformOpenaiToAnthropic jpNone () "u123" ⟨none, none, none, none⟩).model =
      "unknown" ∧
    (transformOpenaiToAnthropic jpNone () "u123" ⟨none, none, none, none⟩).usage =
      (0, 0) ∧
    (transformOpenaiToAnthropic jpNone () "u123" ⟨none, none, none, none⟩).content =
      [] :=
  ⟨⟨rfl, ((c8_theorem jpNone ()).2.1 "u123" ⟨none, none, none, none⟩ rfl).1,
    ((c8_theorem jpNone ()).2.1 "u123" ⟨none, none, none, none⟩ rfl).2⟩,
   (c8_theorem jpNone ()).2.2.2.1 "u123" ⟨none, none, none, none⟩ rfl,
   (c8_theorem jpNone ()).2.2.2.2.1 "u123" ⟨none, none, none, none⟩ rfl,
   (c8_theorem jpNone ()).2.2.2.2.2.2.1 "u123" ⟨none, none, none, none⟩ (Or.inl rfl)⟩

/-- Claim C9 counterexample: with body `{"error": {}, "message": "hi"}`
the code never consults the `message` key (the `error` key is present, its
dict lacks `message`, so the fallback `"Unknown error"` is used), while
the claim's extraction chain — `{error:{message}}`, else `{message}`,
else the literal — yields `"hi"`. -/
theorem c9_counterexample :
    mapOpenaiErrorToAnthropic 418 (some ⟨some (ErrVal.vdict none), some "hi"⟩) =
      (ErrKind.generic, "Unknown error") ∧
    c9ClaimMessage (some ⟨some (ErrVal.vdict none), some "hi"⟩) = "hi" ∧
    "Unknown error" ≠ "hi" :=
  ⟨by decide, rfl, by decide⟩

/-- Claim C9 (amended): `map_openai_error_to_anthropic` returns one tagged
error whose class is determined by the status — 400 BadRequest, 401
Authentication, 403 PermissionDenied, 404 NotFound, 409 Conflict, 422
UnprocessableEntity, 429 RateLimit, any status ≥ 500 InternalServer, any
other status the generic base class — and whose message is: the `message`
of the body's `error` dict when `error` is a dict (the literal
`"Unknown error"` when that dict lacks `message`, even if a top-level
`message` key is present); `str(error)` when `error` is present but not a
dict; the top-level `message` only when no `error` key is present; else
the literal `"Unknown error"`.  Status 418 with
`{"error":{"message":"teapot"}}` yields the generic kind with message
`"teapot"`. -/
theorem c9_amended :
    (∀ b : Option ErrBody, mapOpenaiErrorToAnthropic 400 b =
       (ErrKind.badRequest, errMessageOf b)) ∧
    (∀ b : Option ErrBody, mapOpenaiErrorToAnthropic 401 b =
       (ErrKind.authentication, errMessageOf b)) ∧
    (∀ b : Option ErrBody, mapOpenaiErrorToAnthropic 403 b =
       (ErrKind.permissionDenied, errMessageOf b)) ∧
    (∀ b : Option ErrBody, mapOpenaiErrorToAnthropic 404 b =
       (ErrKind.notFound, errMessageOf b)) ∧
    (∀ b : Option ErrBody, mapOpenaiErrorToAnthropic 409 b =
       (ErrKind.conflict, errMessageOf b)) ∧
    (∀ b : Option ErrBody, mapOpenaiErrorToAnthropic 422 b =
       (ErrKind.unprocessableEntity, errMessageOf b)) ∧
    (∀ b : Option ErrBody, mapOpenaiErrorToAnthropic 429 b =
       (ErrKind.rateLimit, errMessageOf b)) ∧
    (∀ s : Int, s ≥ 500 → ∀ b : Option ErrBody,
       mapOpenaiErrorToAnthropic s b = (ErrKind.internalServer, errMessageOf b)) ∧
    (∀ s : Int, s ∉ ([400, 401, 403, 404, 409, 422, 429] : List Int) →
       s < 500 → ∀ b : Option ErrBody,
       mapOpenaiErrorToAnthropic s b = (ErrKind.generic, errMessageOf b)) ∧
    (errMessageOf none = "Unknown error") ∧
    (∀ (b : ErrBody) (m : String), b.error = some (ErrVal.vdict (some m)) →
       errMessageOf (some b) = m) ∧
    (∀ b : ErrBody, b.error = some (ErrVal.vdict none) →
       errMessageOf (some b) = "Unknown error") ∧
    (∀ (b : ErrBody) (s : String), b.error = some (ErrVal.vother s) →
       errMessageOf (some b) = s) ∧
    (∀ (b : ErrBody) (m : String), b.error = none → b.message = some m →
       errMessageOf (some b) = m) ∧
    (errMessageOf (some ⟨none, none⟩) = "Unknown error") ∧
    (mapOpenaiErrorToAnthropic 418
        (some ⟨some (ErrVal.vdict (some "teapot")), none⟩) =
      (ErrKind.generic, "teapot")) := by
  refine ⟨fun b => rfl, fun b => rfl, fun b => rfl, fun b => rfl, fun b => rfl,
    fun b => rfl, fun b => rfl, ?_, ?_, rfl, ?_, ?_, ?_, ?_, rfl, by decide⟩
  · intro s hs b
    have hk : errKindOf s = ErrKind.internalServer := by
      unfold errKindOf
      split_ifs <;> first | rfl | omega
    simp [mapOpenaiErrorToAnthropic, hk]
  · intro s hs hlt b
    simp only [List.mem_cons, not_or] at hs
    obtain ⟨m1, m2, m3, m4, m5, m6, m7, _⟩ := hs
    have hk : errKindOf s = ErrKind.generic := by
      unfold errKindOf
      split_ifs <;> first | rfl | omega
    simp [mapOpenaiErrorToAnthropic, hk]
  · intro b m h; simp [errMessageOf, h]
  · intro b h; simp [errMessageOf, h]
  · intro b s h; simp [errMessageOf, h]
  · intro b m h1 h2; simp [errMessageOf, h1, h2]

/-- Claim C9 witness: the status dispatch at the concrete codes 503 and
418, and the `{message}` fallback at a concrete body. -/
theorem c9_witness :
    ((503 : Int) ≥ 500 ∧
     mapOpenaiErrorToAnthropic 503 none = (ErrKind.internalServer, "Unknown error")) ∧
    ((418 : Int) ∉ ([400, 401, 403, 404, 409, 422, 429] : List Int) ∧ (418 : Int) < 500 ∧
     mapOpenaiErrorToAnthropic 418 none = (ErrKind.generic, "Unknown error")) ∧
    errMessageOf (some ⟨none, some "hello"⟩) = "hello" :=
  ⟨⟨by decide, c9_amended.2.2.2.2.2.2.2.1 503 (by decide) none⟩,
   ⟨by decide, by decide, c9_amended.2.2.2.2.2.2.2.2.1 418 (by decide) (by decide) none⟩,
   c9_amended.2.2.2.2.2.2.2.2.2.2.2.2.2.1 ⟨none, some "hello"⟩ "hello" rfl rfl⟩

/-! ## The request mapper: tool-result routing (claim C6) -/

/-- Claim C6: a message whose content is a block list contributes the
single combined text/tool-call message (when text parts or tool calls
exist) followed by one separate `{role:"tool", tool_call_id, content}`
message per tool-result block, in source-block order; tool-result messages
are never merged into the combined message (they carry role `"tool"` and
no `tool_calls` key); in particular a content list holding exactly one
tool-result block with id `"t1"` and content `"ok"` yields exactly
`[{role:"tool", tool_call_id:"t1", content:"ok"}]`. -/
theorem c6_theorem {J : Type} (jd : J → String) (je : J) :
    (∀ (m : AMsg J) (bs : List (ABlock J)), m.content = AContent.blocks bs →
       msgContribution jd je m =
         (if (textPartsOf bs).isEmpty ∧ (toolCallsOf jd je bs).isEmpty then
            ([] : List OMsg)
          else
            [{ role := m.role
               content :=
                 if !(textPartsOf bs).isEmpty then
                   some (String.intercalate "\n" (textPartsOf bs))
                 else if !(toolCallsOf jd je bs).isEmpty then some ""
                 else none
               toolCalls :=
                 if (toolCallsOf jd je bs).isEmpty then none
                 else some (toolCallsOf jd je bs)
               toolCallId := none }]) ++ toolResultsOf bs) ∧
    (∀ bs : List (ABlock J), ∀ mo ∈ toolResultsOf bs,
       mo.role = "tool" ∧ mo.toolCalls = none) ∧
    (transformMessages jd je
        [⟨"user", AContent.blocks [ABlock.toolResult (some "t1") (some "ok")]⟩]
        none =
      [{ role := "tool", content := some "ok", toolCalls := none,
         toolCallId := some "t1" }]) := by
  refine ⟨?_, ?_, ?_⟩
  · intro m bs h
    simp only [msgContribution, h]
    by_cases hmain : textPartsOf bs = [] ∧ toolCallsOf jd je bs = []
    · cases htr : toolResultsOf bs with
      | nil => simp [transformContentBlocks, hmain, htr]
      | cons a t =>
        cases t with
        | nil => simp [transformContentBlocks, hmain, htr]
        | cons b t2 => simp [transformContentBlocks, hmain, htr]
    · cases htr : toolResultsOf bs with
      | nil => simp [transformContentBlocks, hmain, htr]
      | cons a t => simp [transformContentBlocks, hmain, htr]
  · intro bs mo hmo
    simp only [toolResultsOf, List.mem_filterMap] at hmo
    obtain ⟨b, _, hbe⟩ := hmo
    cases b with
    | text t => simp at hbe
    | toolUse i n inp => simp at hbe
    | toolResult tid ct =>
      simp only [Option.some.injEq] at hbe
      rw [← hbe]
      exact ⟨rfl, rfl⟩
    | other => simp at hbe
  · rfl

/-- Claim C6 witness: the contribution of the concrete one-block message
holding only a tool-result block. -/
theorem c6_witness :
    ((⟨"user", AContent.blocks [ABlock.toolResult (some "t1") (some "ok")]⟩ :
        AMsg Unit).content =
       AContent.blocks [ABlock.toolResult (some "t1") (some "ok")]) ∧
    msgContribution (fun _ : Unit => "") ()
        ⟨"user", AContent.blocks [ABlock.toolResult (some "t1") (some "ok")]⟩ =
      [{ role := "tool", content := some "ok", toolCalls := none,
         toolCallId := some "t1" }] := by
  refine ⟨rfl, ?_⟩
  have h := (c6_theorem (fun _ : Unit => "") ()).1
    ⟨"user", AContent.blocks [ABlock.toolResult (some "t1") (some "ok")]⟩
    [ABlock.toolResult (some "t1") (some "ok")] rfl
  simpa [textPartsOf, toolCallsOf, toolResultsOf] using h

/-! ## The request mapper: tool_choice (claim C7) and key set (claim C10) -/

theorem lookup_append_none {α β : Type} [BEq α] (l₁ l₂ : List (α × β)) (k : α)
    (h : l₁.lookup k = none) : (l₁ ++ l₂).lookup k = l₂.lookup k := by
  induction l₁ with
  | nil => simp
  | cons e l ih =>
    have hh : List.lookup k (e :: l) =
        match k == e.1 with
        | true => some e.2
        | false => List.lookup k l := rfl
    have hg : List.lookup k (e :: (l ++ l₂)) =
        match k == e.1 with
        | true => some e.2
        | false => List.lookup k (l ++ l₂) := rfl
    rw [hh] at h
    rw [List.cons_append, hg]
    revert h
    cases (k == e.1) with
    | true => intro h; simp at h
    | false => intro h; exact ih h

theorem lookup_append_none₂ {α β : Type} [BEq α] (l₁ l₂ : List (α × β)) (k : α)
    (h1 : l₁.lookup k = none) (h2 : l₂.lookup k = none) :
    (l₁ ++ l₂).lookup k = none := by
  rw [lookup_append_none l₁ l₂ k h1]
  exact h2

theorem optEntry_lookup_ne {β J V : Type} (key k : String) (o : Option β)
    (f : β → OVal J V) (h : (k == key) = false) :
    (optEntry key o f).lookup k = none := by
  cases o with
  | none => rfl
  | some v => simp [optEntry, List.lookup, h]

theorem toolsEntry_lookup_ne {J V : Type} (je : J) (o : Option (List (ATool J)))
    (k : String) (h : (k == "tools") = false) :
    (toolsEntry (V := V) je o).lookup k = none := by
  cases o with
  | none => rfl
  | some ts =>
    by_cases he : ts.isEmpty <;> simp [toolsEntry, he, List.lookup, h]

/-- The `tool_choice` entry of the produced request, as a function of the
source `tool_choice`. -/
theorem toolChoiceEntry_lookup {J V : Type} (o : Option TCVal) :
    (toolChoiceEntry (J := J) (V := V) o).lookup "tool_choice" =
      match o with
      | some tc =>
        if tcTruthy tc then some (OVal.toolChoice (transformToolChoice tc))
        else none
      | none => none := by
  cases o with
  | none => rfl
  | some tc =>
    by_cases ht : tcTruthy tc <;> simp [toolChoiceEntry, ht, List.lookup]

theorem transform_lookup_toolChoice {J V : Type} (jd : J → String) (je : J)
    (p : AParams J V) :
    (transformAnthropicToOpenai jd je p).lookup "tool_choice" =
      match p.toolChoice with
      | some tc =>
        if tcTruthy tc then some (OVal.toolChoice (transformToolChoice tc))
        else none
      | none => none := by
  have hbase : (([("model", OVal.str p.model),
      ("messages", OVal.msgs (transformMessages jd je p.messages p.system))] :
        List (String × OVal J V)).lookup "tool_choice") = none := rfl
  have h1 := optEntry_lookup_ne "max_tokens" "tool_choice" p.maxTokens
    (OVal.pass (J := J) (V := V)) rfl
  have h2 := optEntry_lookup_ne "temperature" "tool_choice" p.temperature
    (OVal.pass (J := J) (V := V)) rfl
  have h3 := optEntry_lookup_ne "top_p" "tool_choice" p.topP
    (OVal.pass (J := J) (V := V)) rfl
  have h4 := optEntry_lookup_ne "stop" "tool_choice" p.stopSequences
    (OVal.pass (J := J) (V := V)) rfl
  have h5 := optEntry_lookup_ne "stream" "tool_choice" p.stream
    (OVal.pass (J := J) (V := V)) rfl
  have htools := toolsEntry_lookup_ne (V := V) je p.tools "tool_choice" rfl
  unfold transformAnthropicToOpenai
  rw [lookup_append_none _ _ _
    (lookup_append_none₂ _ _ _
      (lookup_append_none₂ _ _ _
        (lookup_append_none₂ _ _ _
          (lookup_append_none₂ _ _ _
            (lookup_append_none₂ _ _ _
              (lookup_append_none₂ _ _ _ hbase h1) h2) h3) h4) h5) htools)]
  exact toolChoiceEntry_lookup p.toolChoice

/-- Claim C7 counterexample: a present but falsy `tool_choice` (here the
empty string) fails the `params["tool_choice"]` truthiness guard, so the
produced request carries no `tool_choice` key at all — while the claim
("any other string → auto") demands the value `"auto"`. -/
theorem c7_counterexample :
    (transformAnthropicToOpenai (fun _ : Unit => "") () paramsEmptyTC).lookup
        "tool_choice" = none ∧
    (none : Option (OVal Unit Unit)) ≠
      some (OVal.toolChoice (OToolChoiceOut.strv "auto")) :=
  ⟨by decide, by decide⟩

/-- Claim C7 (amended): whenever `tool_choice` is present AND truthy (a
non-empty string or non-empty object), the target request's `tool_choice`
is: `"auto"` for `"auto"`, `"required"` for `"any"`/`"required"`,
`"auto"` for any other string, `{type:"function", function:{name}}` for an
object `{type:"tool", name:<truthy name>}`, and `"auto"` for anything else;
a present but falsy `tool_choice` (empty string, empty object, null) is
not mapped: the produced request carries no `tool_choice` key. -/
theorem c7_amended {J V : Type} (jd : J → String) (je : J) :
    (∀ (p : AParams J V) (tc : TCVal), p.toolChoice = some tc →
       tcTruthy tc = true →
       (transformAnthropicToOpenai jd je p).lookup "tool_choice" =
         some (OVal.toolChoice (transformToolChoice tc))) ∧
    (∀ (p : AParams J V) (tc : TCVal), p.toolChoice = some tc →
       tcTruthy tc = false →
       (transformAnthropicToOpenai jd je p).lookup "tool_choice" = none) ∧
    (∀ p : AParams J V, p.toolChoice = none →
       (transformAnthropicToOpenai jd je p).lookup "tool_choice" = none) ∧
    (transformToolChoice (TCVal.str "auto") = OToolChoiceOut.strv "auto") ∧
    (transformToolChoice (TCVal.str "any") = OToolChoiceOut.strv "required") ∧
    (transformToolChoice (TCVal.str "required") = OToolChoiceOut.strv "required") ∧
    (∀ s : String, s ∉ (["auto", "any", "required"] : List String) →
       transformToolChoice (TCVal.str s) = OToolChoiceOut.strv "auto") ∧
    (∀ (es : List (String × Option String)) (n : String),
       dictGet es "type" = some "tool" → dictGet es "name" = some n → n ≠ "" →
       transformToolChoice (TCVal.dict es) = OToolChoiceOut.fnObj n) ∧
    (∀ es : List (String × Option String),
       dictGet es "type" = some "tool" →
       (dictGet es "name" = none ∨ dictGet es "name" = some "") →
       transformToolChoice (TCVal.dict es) = OToolChoiceOut.strv "auto") ∧
    (∀ (es : List (String × Option String)) (t : String),
       dictGet es "type" = some t → t ≠ "tool" →
       transformToolChoice (TCVal.dict es) = OToolChoiceOut.strv "auto") ∧
    (∀ es : List (String × Option String), dictGet es "type" = none →
       transformToolChoice (TCVal.dict es) = OToolChoiceOut.strv "auto") ∧
    (transformToolChoice TCVal.nullv = OToolChoiceOut.strv "auto") := by
  refine ⟨?_, ?_, ?_, rfl, rfl, rfl, ?_, ?_, ?_, ?_, ?_, rfl⟩
  · intro p tc hp ht
    rw [transform_lookup_toolChoice, hp]
    simp [ht]
  · intro p tc hp ht
    rw [transform_lookup_toolChoice, hp]
    simp [ht]
  · intro p hp
    rw [transform_lookup_toolChoice, hp]
  · intro s hs
    simp only [List.mem_cons, List.mem_singleton, not_or] at hs
    obtain ⟨n1, n2, n3⟩ := hs
    simp [transformToolChoice, n1, n2, n3.1]
  · intro es n h1 h2 hn
    simp [transformToolChoice, h1, h2, hn]
  · intro es h1 h2
    rcases h2 with h2 | h2 <;> simp [transformToolChoice, h1, h2]
  · intro es t h1 ht
    simp [transformToolChoice, h1, ht]
  · intro es h1
    simp [transformToolChoice, h1]

/-- Claim C7 witness: the mapping at the concrete truthy value `"any"`
and the omission at the concrete falsy value `""`. -/
theorem c7_witness :
    (paramsAnyTC.toolChoice = some (TCVal.str "any") ∧
     tcTruthy (TCVal.str "any") = true ∧
     (transformAnthropicToOpenai (fun _ : Unit => "") () paramsAnyTC).lookup
         "tool_choice" =
       some (OVal.toolChoice (transformToolChoice (TCVal.str "any")))) ∧
    (paramsEmptyTC.toolChoice = some (TCVal.str "") ∧
     tcTruthy (TCVal.str "") = false ∧
     (transformAnthropicToOpenai (fun _ : Unit => "") () paramsEmptyTC).lookup
         "tool_choice" = none) :=
  ⟨⟨rfl, rfl,
    (c7_amended (fun _ : Unit => "") ()).1 paramsAnyTC (TCVal.str "any") rfl rfl⟩,
   ⟨rfl, rfl,
    (c7_amended (fun _ : Unit => "") ()).2.1 paramsEmptyTC (TCVal.str "") rfl rfl⟩⟩

theorem optEntry_keys {β J V : Type} (key k : String) (o : Option β)
    (f : β → OVal J V) (h : k ∈ (optEntry key o f).map Prod.fst) : k = key := by
  cases o with
  | none => simp [optEntry] at h
  | some v => simpa [optEntry] using h

theorem toolsEntry_keys {J V : Type} (je : J) (o : Option (List (ATool J)))
    (k : String) (h : k ∈ (toolsEntry (V := V) je o).map Prod.fst) :
    k = "tools" := by
  cases o with
  | none => simp [toolsEntry] at h
  | some ts =>
    by_cases he : ts.isEmpty <;> simp [toolsEntry, he] at h
    exact h

theorem toolChoiceEntry_keys {J V : Type} (o : Option TCVal) (k : String)
    (h : k ∈ (toolChoiceEntry (J := J) (V := V) o).map Prod.fst) :
    k = "tool_choice" := by
  cases o with
  | none => simp [toolChoiceEntry] at h
  | some tc =>
    by_cases ht : tcTruthy tc <;> simp [toolChoiceEntry, ht] at h
    exact h

/-- Claim C10: the key set of the produced request is a subset of the
fixed nine keys; any other key of the source request (such as
extension-bag keys merged in by the client facade, modelled by the
`extra` field) is never copied into the target request. -/
theorem c10_theorem {J V : Type} (jd : J → String) (je : J)
    (p : AParams J V) (k : String)
    (hk : k ∈ (transformAnthropicToOpenai jd je p).map Prod.fst) :
    k ∈ (["model", "messages", "max_tokens", "temperature", "top_p", "stop",
          "stream", "tools", "tool_choice"] : List String) := by
  simp only [transformAnthropicToOpenai, List.map_append, List.mem_append] at hk
  rcases hk with (((((((h | h) | h) | h) | h) | h) | h) | h)
  · simp at h
    rcases h with h | h <;> simp [h]
  · rw [optEntry_keys "max_tokens" k p.maxTokens OVal.pass h]; simp
  · rw [optEntry_keys "temperature" k p.temperature OVal.pass h]; simp
  · rw [optEntry_keys "top_p" k p.topP OVal.pass h]; simp
  · rw [optEntry_keys "stop" k p.stopSequences OVal.pass h]; simp
  · rw [optEntry_keys "stream" k p.stream OVal.pass h]; simp
  · rw [toolsEntry_keys je p.tools k h]; simp
  · rw [toolChoiceEntry_keys p.toolChoice k h]; simp

/-- Claim C10 witness: the key-set inclusion at a concrete produced key. -/
theorem c10_witness :
    ("model" ∈ (transformAnthropicToOpenai (fun _ : Unit => "") ()
        paramsEmptyTC).map Prod.fst) ∧
    ("model" ∈ (["model", "messages", "max_tokens", "temperature", "top_p",
        "stop", "stream", "tools", "tool_choice"] : List String)) :=
  ⟨by decide,
   c10_theorem (fun _ : Unit => "") () paramsEmptyTC "model" (by decide)⟩

end Bridge

